import Mathlib

/-!
Verification development for the storyforge backend (Python).

Text is modelled as `List Char` (one Python `str` character per entry).
Each definition is a shallow embedding of the correspondingly named
function of `src/backend/app`, translated line by line; external
collaborators (the Ollama model backend, `json.loads`, the database
vector queries) are passed in as explicit parameters, mirroring the
spec's treatment of them as black boxes.
-/

namespace Storyforge

/-- The apostrophe character, used when building pattern literals. -/
def apoc : Char := Char.ofNat 39

/-- Python `str.strip` whitespace set (ASCII part, which is all the
code ever feeds it): space, tab, newline, carriage return, vertical
tab, form feed. -/
def pyIsSpace (c : Char) : Bool :=
  c == ' ' || c == '\t' || c == '\n' || c == '\r' ||
  c == Char.ofNat 11 || c == Char.ofNat 12

/-- Python `str.lstrip()`. -/
def lstripL (l : List Char) : List Char := l.dropWhile pyIsSpace

/-- Python `str.rstrip()`. -/
def rstripL (l : List Char) : List Char := (l.reverse.dropWhile pyIsSpace).reverse

/-- Python `str.strip()`. -/
def stripL (l : List Char) : List Char := rstripL (lstripL l)

/-- Python `text.split("\n")`: always returns at least one (possibly
empty) line; the separators are consumed. -/
def splitNL : List Char → List (List Char)
  | [] => [[]]
  | c :: r =>
    if c == '\n' then [] :: splitNL r
    else
      match splitNL r with
      | [] => [[c]]
      | l :: ls => (c :: l) :: ls

/-- Python `"\n".join(lines)`. -/
def joinNL : List (List Char) → List Char
  | [] => []
  | [l] => l
  | l :: ls => l ++ '\n' :: joinNL ls

/-- Word characters for the regex `\b` boundary (`[A-Za-z0-9_]`). -/
def isWordChar (c : Char) : Bool := c.isAlphanum || c == '_'

/-- `pat` matches at the start of `t` and is followed by a `\b`
word boundary (all pattern literals using `\b` end in a word char,
so the boundary holds iff the next char is absent or non-word). -/
def startsWB (pat t : List Char) : Bool :=
  pat.isPrefixOf t &&
    (match t.drop pat.length with
     | [] => true
     | c :: _ => !(isWordChar c))

/-- Pattern literal `"I'll provide"`, lowercased. -/
def illProvide : List Char := "i".toList ++ [apoc] ++ "ll provide".toList

/-- Shallow embedding of `_CUTOFF_PATTERNS.match(stripped)` from
`text_utils.py` (and the identical `WriterService._CUTOFF_PATTERNS`):
the regex is anchored at the start of the line, case-insensitive, and
is only ever applied to an already-stripped single line, so the
`---\s*$` alternative reduces to equality with `"---"`. -/
def matchesCutoff (s : List Char) : Bool :=
  let t := s.map Char.toLower
  startsWB "let me know".toList t ||
  startsWB illProvide t ||
  startsWB "continue with".toList t ||
  "i hope you enjoy".toList.isPrefixOf t ||
  "if you would like".toList.isPrefixOf t ||
  "would you like".toList.isPrefixOf t ||
  startsWB "feel free to".toList t ||
  startsWB "i made some".toList t ||
  startsWB "here are some".toList t ||
  startsWB "these are just".toList t ||
  "note:".toList.isPrefixOf t ||
  "notes:".toList.isPrefixOf t ||
  "(note:".toList.isPrefixOf t ||
  "[world bible]".toList.isPrefixOf t ||
  "scene plan:".toList.isPrefixOf t ||
  t == "---".toList

/-- `remaining_lines` of `text_utils.py:49-51`: the stripped non-blank
lines after the current one. -/
def remAfter (rest : List (List Char)) : List (List Char) :=
  (rest.map stripL).filter (fun x => x ≠ [])

/-- The scan loop of `clean_model_output` (`text_utils.py:40-61`):
returns the index of the first cutoff line, skipping blank lines,
with the special case for a bare `---` line (cutoff only when there is
no non-blank content after it, or some remaining non-blank line also
matches a pattern). -/
def cutoffIdx : List (List Char) → Option Nat
  | [] => none
  | l :: rest =>
    let stripped := stripL l
    if stripped == [] then (cutoffIdx rest).map (· + 1)
    else if matchesCutoff stripped then
      if "---".toList.isPrefixOf stripped then
        if (remAfter rest).isEmpty || (remAfter rest).any matchesCutoff then some 0
        else (cutoffIdx rest).map (· + 1)
      else some 0
    else (cutoffIdx rest).map (· + 1)

/-- `clean_model_output` (`text_utils.py:29-66`, identical to
`WriterService._clean_output`): truncate at the first cutoff line,
then strip trailing whitespace. -/
def clean_model_output (text : List Char) : List Char :=
  let lines := splitNL text
  match cutoffIdx lines with
  | some i => rstripL (joinNL (lines.take i))
  | none => rstripL text

-- Fidelity checks against the repository's own unit tests
-- (tests/unit/test_text_utils.py).
example :
    clean_model_output
      ("The car sped down the highway.\n\nLet me know if you would like me to continue.".toList)
      = "The car sped down the highway.".toList := by decide

example :
    clean_model_output
      ("The city lights flickered below.\n\n---\n\nLet me know if more is wanted.".toList)
      = "The city lights flickered below.".toList := by decide

example :
    clean_model_output ("Part one ended.\n\n---\n\nPart two began with a crash.".toList)
      = "Part one ended.\n\n---\n\nPart two began with a crash.".toList := by decide

example : clean_model_output ("The end.\n\n---\n\n".toList) = "The end.".toList := by decide

example : clean_model_output ("The rain stopped.   \n\n  ".toList) = "The rain stopped.".toList := by
  decide

example : clean_model_output ([] : List Char) = [] := by decide

/-! ### Generic list lemmas used by the cleanup proofs -/

theorem dropWhile_self {α : Type} (p : α → Bool) (l : List α) :
    (l.dropWhile p).dropWhile p = l.dropWhile p := by
  induction l with
  | nil => rfl
  | cons c r ih =>
    by_cases h : p c
    · simp [List.dropWhile_cons, h, ih]
    · simp [List.dropWhile_cons, h]

theorem dropWhile_append_eq {α : Type} (p : α → Bool) (xs ys : List α) :
    (xs ++ ys).dropWhile p =
      if (xs.dropWhile p).isEmpty then ys.dropWhile p else xs.dropWhile p ++ ys := by
  induction xs with
  | nil => simp
  | cons c r ih =>
    by_cases h : p c
    · simpa [List.dropWhile_cons, h] using ih
    · simp [List.dropWhile_cons, h]

/-! ### Lemmas about `rstripL`, `lstripL`, `stripL` -/

theorem rstripL_rstripL (l : List Char) : rstripL (rstripL l) = rstripL l := by
  simp [rstripL, dropWhile_self]

theorem rstripL_eq_nil_iff (l : List Char) :
    rstripL l = [] ↔ ∀ c ∈ l, pyIsSpace c := by
  simp [rstripL, List.dropWhile_eq_nil_iff]

theorem lstripL_eq_nil_iff (l : List Char) :
    lstripL l = [] ↔ ∀ c ∈ l, pyIsSpace c := by
  simp [lstripL, List.dropWhile_eq_nil_iff]

theorem rstripL_cons (c : Char) (r : List Char) :
    rstripL (c :: r) =
      if pyIsSpace c ∧ rstripL r = [] then [] else c :: rstripL r := by
  simp only [rstripL, List.reverse_cons, dropWhile_append_eq]
  by_cases hr : (r.reverse.dropWhile pyIsSpace).isEmpty
  · have hr' : r.reverse.dropWhile pyIsSpace = [] := by
      simpa [List.isEmpty_iff] using hr
    by_cases hc : pyIsSpace c
    · simp [hr, hr', List.dropWhile_cons, hc]
    · simp [hr, hr', List.dropWhile_cons, hc]
  · have hr' : r.reverse.dropWhile pyIsSpace ≠ [] := by
      simpa [List.isEmpty_iff] using hr
    simp [hr, hr']

theorem lstripL_cons_of_space {c : Char} (hc : pyIsSpace c) (r : List Char) :
    lstripL (c :: r) = lstripL r := by
  simp [lstripL, List.dropWhile_cons, hc]

theorem lstripL_cons_of_not_space {c : Char} (hc : ¬ pyIsSpace c) (r : List Char) :
    lstripL (c :: r) = c :: r := by
  simp [lstripL, List.dropWhile_cons, hc]

theorem lstripL_rstripL (l : List Char) : lstripL (rstripL l) = rstripL (lstripL l) := by
  induction l with
  | nil => rfl
  | cons c r ih =>
    by_cases hc : pyIsSpace c
    · by_cases hr : rstripL r = []
      · have hl : lstripL r = [] := by
          rw [lstripL_eq_nil_iff]
          exact (rstripL_eq_nil_iff r).mp hr
        rw [rstripL_cons, if_pos ⟨hc, hr⟩, lstripL_cons_of_space hc, hl]
        rfl
      · rw [rstripL_cons, if_neg (by simp [hr]), lstripL_cons_of_space hc,
          lstripL_cons_of_space hc, ih]
    · rw [rstripL_cons, if_neg (by simp [hc]), lstripL_cons_of_not_space hc,
        lstripL_cons_of_not_space hc, rstripL_cons, if_neg (by simp [hc])]

theorem stripL_rstripL (l : List Char) : stripL (rstripL l) = stripL l := by
  unfold stripL
  rw [lstripL_rstripL, rstripL_rstripL]

theorem mem_of_mem_dropWhile {α : Type} {p : α → Bool} {x : α} {l : List α}
    (h : x ∈ l.dropWhile p) : x ∈ l := by
  have := List.takeWhile_append_dropWhile (p := p) (l := l)
  rw [← this]
  exact List.mem_append_right _ h

theorem mem_of_mem_rstripL {c : Char} {l : List Char} (h : c ∈ rstripL l) : c ∈ l := by
  simp only [rstripL, List.mem_reverse] at h
  simpa using mem_of_mem_dropWhile h

/-! ### Lemmas about `splitNL` and `joinNL` -/

theorem joinNL_cons_cons (l l₂ : List Char) (ls : List (List Char)) :
    joinNL (l :: l₂ :: ls) = l ++ '\n' :: joinNL (l₂ :: ls) := rfl

theorem joinNL_append_singleton {init : List (List Char)} (h : init ≠ []) (l : List Char) :
    joinNL (init ++ [l]) = joinNL init ++ '\n' :: l := by
  induction init with
  | nil => exact absurd rfl h
  | cons x rest ih =>
    cases rest with
    | nil => rfl
    | cons y rest' =>
      have : joinNL ((y :: rest') ++ [l]) = joinNL (y :: rest') ++ '\n' :: l :=
        ih (by simp)
      calc joinNL ((x :: y :: rest') ++ [l])
          = x ++ '\n' :: joinNL ((y :: rest') ++ [l]) := rfl
        _ = x ++ '\n' :: (joinNL (y :: rest') ++ '\n' :: l) := by rw [this]
        _ = (x ++ '\n' :: joinNL (y :: rest')) ++ '\n' :: l := by simp

theorem splitNL_ne_nil (t : List Char) : splitNL t ≠ [] := by
  cases t with
  | nil => simp [splitNL]
  | cons c r =>
    simp only [splitNL]
    by_cases h : c == '\n'
    · simp [h]
    · simp only [h, if_false]
      cases splitNL r <;> simp

theorem nlFree_splitNL (t : List Char) : ∀ l ∈ splitNL t, '\n' ∉ l := by
  induction t with
  | nil => intro l hl; simp [splitNL] at hl; simp [hl]
  | cons c r ih =>
    intro l hl
    simp only [splitNL] at hl
    by_cases h : c = '\n'
    · simp only [h, beq_self_eq_true, if_true] at hl
      rcases List.mem_cons.mp hl with h1 | h2
      · simp [h1]
      · exact ih l h2
    · have hb : (c == '\n') = false := by simp [h]
      simp only [hb, Bool.false_eq_true, if_false] at hl
      rcases hsr : splitNL r with _ | ⟨m, ms⟩
      · exact absurd hsr (splitNL_ne_nil r)
      · rw [hsr] at hl
        rcases List.mem_cons.mp hl with h1 | h2
        · subst h1
          intro hmem
          rcases List.mem_cons.mp hmem with h3 | h4
          · exact h h3.symm
          · exact ih m (by rw [hsr]; exact List.mem_cons_self m ms) h4
        · exact ih l (by rw [hsr]; exact List.mem_cons_of_mem m h2)

theorem splitNL_cons_of_ne {c : Char} (h : c ≠ '\n') {r l : List Char}
    {ls : List (List Char)} (hr : splitNL r = l :: ls) :
    splitNL (c :: r) = (c :: l) :: ls := by
  have hb : (c == '\n') = false := by simp [h]
  simp only [splitNL, hb, Bool.false_eq_true, if_false, hr]

theorem splitNL_append_nl {l : List Char} (h : '\n' ∉ l) (t : List Char) :
    splitNL (l ++ '\n' :: t) = l :: splitNL t := by
  induction l with
  | nil => simp [splitNL]
  | cons c r ih =>
    have hc : c ≠ '\n' := fun hh => h (hh ▸ List.mem_cons_self c r)
    have hr : '\n' ∉ r := fun hh => h (List.mem_cons_of_mem c hh)
    rw [List.cons_append, splitNL_cons_of_ne hc (ih hr)]

theorem splitNL_nlFree {l : List Char} (h : '\n' ∉ l) : splitNL l = [l] := by
  induction l with
  | nil => rfl
  | cons c r ih =>
    have hc : c ≠ '\n' := fun hh => h (hh ▸ List.mem_cons_self c r)
    have hr : '\n' ∉ r := fun hh => h (List.mem_cons_of_mem c hh)
    have hb : (c == '\n') = false := by simp [hc]
    simp only [splitNL, hb, Bool.false_eq_true, if_false]
    rw [ih hr]

theorem splitNL_joinNL {ls : List (List Char)} (hnl : ∀ l ∈ ls, '\n' ∉ l)
    (hne : ls ≠ []) : splitNL (joinNL ls) = ls := by
  induction ls with
  | nil => exact absurd rfl hne
  | cons l rest ih =>
    cases rest with
    | nil => exact splitNL_nlFree (hnl l (List.mem_cons_self l []))
    | cons l₂ rest' =>
      rw [joinNL_cons_cons,
        splitNL_append_nl (hnl l (List.mem_cons_self l _)),
        ih (fun x hx => hnl x (List.mem_cons_of_mem l hx)) (by simp)]

theorem joinNL_cons_head (c : Char) (m : List Char) (ms : List (List Char)) :
    joinNL ((c :: m) :: ms) = c :: joinNL (m :: ms) := by
  cases ms <;> simp [joinNL]

theorem joinNL_splitNL (t : List Char) : joinNL (splitNL t) = t := by
  induction t with
  | nil => rfl
  | cons c r ih =>
    by_cases h : c = '\n'
    · subst h
      simp only [splitNL, beq_self_eq_true, if_true]
      rcases hsr : splitNL r with _ | ⟨m, ms⟩
      · exact absurd hsr (splitNL_ne_nil r)
      · rw [hsr] at ih
        have hj : joinNL ([] :: m :: ms) = '\n' :: joinNL (m :: ms) := rfl
        rw [hj, ih]
    · rcases hsr : splitNL r with _ | ⟨m, ms⟩
      · exact absurd hsr (splitNL_ne_nil r)
      · rw [hsr] at ih
        rw [splitNL_cons_of_ne h hsr, joinNL_cons_head, ih]

/-! ### Trailing-whitespace trimming at the line level

`rstripL (joinNL ls)` drops all-whitespace lines from the end of `ls`
and right-strips the last surviving line; `trimTail` expresses that
transformation directly on the line list. -/

def blankL (l : List Char) : Bool := (rstripL l).isEmpty

def trimTailRev (r : List (List Char)) : List (List Char) :=
  match r.dropWhile blankL with
  | [] => []
  | l :: rest => rstripL l :: rest

def trimTail (ls : List (List Char)) : List (List Char) :=
  (trimTailRev ls.reverse).reverse

theorem blankL_iff (l : List Char) : blankL l = true ↔ rstripL l = [] := by
  simp [blankL, List.isEmpty_iff]

theorem trimTail_append_blank {l : List Char} (hb : blankL l) (init : List (List Char)) :
    trimTail (init ++ [l]) = trimTail init := by
  simp only [trimTail, trimTailRev, List.reverse_append, List.reverse_singleton,
    List.singleton_append, List.dropWhile_cons, hb, if_true]

theorem trimTail_append_nonblank {l : List Char} (hb : ¬ blankL l)
    (init : List (List Char)) : trimTail (init ++ [l]) = init ++ [rstripL l] := by
  have hb' : blankL l = false := by simpa using hb
  simp [trimTail, trimTailRev, List.dropWhile_cons, hb']

theorem rstripL_append (a b : List Char) :
    rstripL (a ++ b) = if (rstripL b).isEmpty then rstripL a else a ++ rstripL b := by
  rcases hd : List.dropWhile pyIsSpace b.reverse with _ | ⟨x, xs⟩
  · rw [if_pos (show (rstripL b).isEmpty = true by simp [rstripL, hd])]
    simp only [rstripL, List.reverse_append, dropWhile_append_eq, hd]
    simp
  · rw [if_neg (show ¬ (rstripL b).isEmpty = true by simp [rstripL, hd])]
    simp only [rstripL, List.reverse_append, dropWhile_append_eq, hd]
    simp

theorem rstripL_nl_cons_blank {l : List Char} (hb : rstripL l = []) :
    rstripL ('\n' :: l) = [] := by
  rw [rstripL_cons, if_pos ⟨by decide, hb⟩]

theorem rstripL_nl_cons_nonblank {l : List Char} (hb : rstripL l ≠ []) :
    rstripL ('\n' :: l) = '\n' :: rstripL l := by
  rw [rstripL_cons, if_neg (by simp [hb])]

theorem rstripL_joinNL (ls : List (List Char)) :
    rstripL (joinNL ls) = joinNL (trimTail ls) := by
  induction ls using List.reverseRecOn with
  | nil => rfl
  | append_singleton init l ih =>
    by_cases hb : blankL l
    · have hbl : rstripL l = [] := (blankL_iff l).mp hb
      rw [trimTail_append_blank hb, ← ih]
      rcases eq_or_ne init [] with h0 | h0
      · subst h0
        simpa [joinNL] using hbl
      · rw [joinNL_append_singleton h0, rstripL_append]
        simp [List.isEmpty_iff, rstripL_nl_cons_blank hbl]
    · have hbl : rstripL l ≠ [] := fun hh => hb ((blankL_iff l).mpr hh)
      rw [trimTail_append_nonblank hb]
      rcases eq_or_ne init [] with h0 | h0
      · subst h0
        simp [joinNL]
      · rw [joinNL_append_singleton h0, joinNL_append_singleton h0, rstripL_append,
          rstripL_nl_cons_nonblank hbl]
        simp

/-! ### Case equations and structural facts about the cutoff scan -/

theorem cutoffIdx_cons_blank {l : List Char} (hs : stripL l = [])
    (rest : List (List Char)) :
    cutoffIdx (l :: rest) = (cutoffIdx rest).map (· + 1) := by
  simp [cutoffIdx, hs]

theorem cutoffIdx_cons_nomatch {l : List Char} (hs : stripL l ≠ [])
    (hm : matchesCutoff (stripL l) = false) (rest : List (List Char)) :
    cutoffIdx (l :: rest) = (cutoffIdx rest).map (· + 1) := by
  simp [cutoffIdx, hs, hm]

theorem cutoffIdx_cons_plain {l : List Char} (hs : stripL l ≠ [])
    (hm : matchesCutoff (stripL l) = true)
    (hp : ¬ "---".toList.isPrefixOf (stripL l)) (rest : List (List Char)) :
    cutoffIdx (l :: rest) = some 0 := by
  simp only [cutoffIdx]
  rw [if_neg (by simp [hs]), if_pos hm, if_neg hp]

theorem cutoffIdx_cons_dash_cut {l : List Char} (hs : stripL l ≠ [])
    (hm : matchesCutoff (stripL l) = true)
    (hp : "---".toList.isPrefixOf (stripL l)) {rest : List (List Char)}
    (hc : ((remAfter rest).isEmpty || (remAfter rest).any matchesCutoff) = true) :
    cutoffIdx (l :: rest) = some 0 := by
  simp [cutoffIdx, hs, hm, hp, hc]

theorem cutoffIdx_cons_dash_keep {l : List Char} (hs : stripL l ≠ [])
    (hm : matchesCutoff (stripL l) = true)
    (hp : "---".toList.isPrefixOf (stripL l)) {rest : List (List Char)}
    (hc : ((remAfter rest).isEmpty || (remAfter rest).any matchesCutoff) = false) :
    cutoffIdx (l :: rest) = (cutoffIdx rest).map (· + 1) := by
  simp only [cutoffIdx]
  rw [if_neg (by simp [hs]), if_pos hm, if_pos hp, if_neg (by simp [hc])]

theorem stripL_mem_remAfter {x : List Char} {rest : List (List Char)}
    (hx : x ∈ rest) (hs : stripL x ≠ []) : stripL x ∈ remAfter rest := by
  simp only [remAfter, List.mem_filter]
  exact ⟨List.mem_map_of_mem stripL hx, by simpa using hs⟩

/-- Wherever the scan reports a cutoff, some non-blank line matches a
pattern. -/
theorem cutoffIdx_some_match {ls : List (List Char)} {j : Nat}
    (h : cutoffIdx ls = some j) :
    ∃ l ∈ ls, stripL l ≠ [] ∧ matchesCutoff (stripL l) = true := by
  induction ls generalizing j with
  | nil => simp [cutoffIdx] at h
  | cons l rest ih =>
    by_cases hs : stripL l = []
    · rw [cutoffIdx_cons_blank hs] at h
      rcases Option.map_eq_some'.mp h with ⟨j', hj', _⟩
      obtain ⟨x, hx, hxp⟩ := ih hj'
      exact ⟨x, List.mem_cons_of_mem l hx, hxp⟩
    · by_cases hm : matchesCutoff (stripL l) = true
      · exact ⟨l, List.mem_cons_self l rest, hs, hm⟩
      · rw [cutoffIdx_cons_nomatch hs (by simpa using hm)] at h
        rcases Option.map_eq_some'.mp h with ⟨j', hj', _⟩
        obtain ⟨x, hx, hxp⟩ := ih hj'
        exact ⟨x, List.mem_cons_of_mem l hx, hxp⟩

/-- Every non-blank line strictly before the reported cutoff fails the
pattern check (a bare `---` kept by the scan cannot precede a cutoff:
that cutoff line would itself appear among its remaining lines). -/
theorem cutoffIdx_take_nomatch {ls : List (List Char)} {i : Nat}
    (h : cutoffIdx ls = some i) :
    ∀ l ∈ ls.take i, stripL l ≠ [] → matchesCutoff (stripL l) = false := by
  induction ls generalizing i with
  | nil => simp [cutoffIdx] at h
  | cons l rest ih =>
    by_cases hs : stripL l = []
    · rw [cutoffIdx_cons_blank hs] at h
      rcases Option.map_eq_some'.mp h with ⟨j, hj, hi⟩
      subst hi
      intro x hx hxs
      rw [List.take_succ_cons] at hx
      rcases List.mem_cons.mp hx with h1 | h2
      · exact absurd (h1 ▸ hs) hxs
      · exact ih hj x h2 hxs
    · by_cases hm : matchesCutoff (stripL l) = true
      · by_cases hp : "---".toList.isPrefixOf (stripL l)
        · by_cases hc :
            ((remAfter rest).isEmpty || (remAfter rest).any matchesCutoff) = true
          · rw [cutoffIdx_cons_dash_cut hs hm hp hc] at h
            obtain rfl : (0 : Nat) = i := by simpa using h
            simp
          · rw [cutoffIdx_cons_dash_keep hs hm hp (by simpa using hc)] at h
            rcases Option.map_eq_some'.mp h with ⟨j, hj, hi⟩
            obtain ⟨x, hx, hxs, hxm⟩ := cutoffIdx_some_match hj
            exfalso
            apply hc
            have : (remAfter rest).any matchesCutoff = true :=
              List.any_eq_true.mpr ⟨stripL x, stripL_mem_remAfter hx hxs, hxm⟩
            simp [this]
        · rw [cutoffIdx_cons_plain hs hm hp] at h
          obtain rfl : (0 : Nat) = i := by simpa using h
          simp
      · rw [cutoffIdx_cons_nomatch hs (by simpa using hm)] at h
        rcases Option.map_eq_some'.mp h with ⟨j, hj, hi⟩
        subst hi
        intro x hx hxs
        rw [List.take_succ_cons] at hx
        rcases List.mem_cons.mp hx with h1 | h2
        · subst h1; simpa using hm
        · exact ih hj x h2 hxs

/-- If no non-blank line matches any pattern, the scan reports no
cutoff. -/
theorem cutoffIdx_none_of_nomatch {ls : List (List Char)}
    (h : ∀ l ∈ ls, stripL l ≠ [] → matchesCutoff (stripL l) = false) :
    cutoffIdx ls = none := by
  induction ls with
  | nil => rfl
  | cons l rest ih =>
    have ihr : cutoffIdx rest = none :=
      ih fun x hx => h x (List.mem_cons_of_mem l hx)
    by_cases hs : stripL l = []
    · rw [cutoffIdx_cons_blank hs, ihr]; rfl
    · rw [cutoffIdx_cons_nomatch hs (h l (List.mem_cons_self l rest) hs), ihr]; rfl

/-- The scan only reads lines through `stripL`. -/
theorem cutoffIdx_congr {ls ls' : List (List Char)}
    (h : ls.map stripL = ls'.map stripL) : cutoffIdx ls = cutoffIdx ls' := by
  induction ls generalizing ls' with
  | nil =>
    cases ls' with
    | nil => rfl
    | cons _ _ => simp at h
  | cons l rest ih =>
    cases ls' with
    | nil => simp at h
    | cons l' rest' =>
      simp only [List.map_cons, List.cons.injEq] at h
      obtain ⟨h1, h2⟩ := h
      have hrem : remAfter rest = remAfter rest' := by simp [remAfter, h2]
      simp only [cutoffIdx, h1, hrem, ih h2]

theorem remAfter_append_blanks {rest blanks : List (List Char)}
    (hb : ∀ b ∈ blanks, stripL b = []) :
    remAfter (rest ++ blanks) = remAfter rest := by
  simp only [remAfter, List.map_append, List.filter_append]
  have : (blanks.map stripL).filter (fun x => x ≠ []) = [] := by
    rw [List.filter_eq_nil]
    intro a ha
    rcases List.mem_map.mp ha with ⟨b, hbm, hab⟩
    simp [← hab, hb b hbm]
  rw [this, List.append_nil]

/-- Dropping a suffix of all-blank lines never creates a cutoff. -/
theorem cutoffIdx_of_append_blanks_none {pre blanks : List (List Char)}
    (hb : ∀ b ∈ blanks, stripL b = [])
    (h : cutoffIdx (pre ++ blanks) = none) : cutoffIdx pre = none := by
  induction pre with
  | nil => rfl
  | cons l pre' ih =>
    rw [List.cons_append] at h
    by_cases hs : stripL l = []
    · rw [cutoffIdx_cons_blank hs] at h
      rw [cutoffIdx_cons_blank hs,
        ih (by simpa using Option.map_eq_none'.mp h)]
      rfl
    · by_cases hm : matchesCutoff (stripL l) = true
      · by_cases hp : "---".toList.isPrefixOf (stripL l)
        · by_cases hc :
            ((remAfter (pre' ++ blanks)).isEmpty ||
              (remAfter (pre' ++ blanks)).any matchesCutoff) = true
          · rw [cutoffIdx_cons_dash_cut hs hm hp hc] at h
            exact absurd h (by simp)
          · have hc' := hc
            rw [remAfter_append_blanks hb] at hc'
            rw [cutoffIdx_cons_dash_keep hs hm hp (by simpa using hc)] at h
            rw [cutoffIdx_cons_dash_keep hs hm hp (by simpa using hc'),
              ih (by simpa using Option.map_eq_none'.mp h)]
            rfl
        · rw [cutoffIdx_cons_plain hs hm hp] at h
          exact absurd h (by simp)
      · rw [cutoffIdx_cons_nomatch hs (by simpa using hm)] at h
        rw [cutoffIdx_cons_nomatch hs (by simpa using hm),
          ih (by simpa using Option.map_eq_none'.mp h)]
        rfl

/-! ### The cleaned output survives a second scan unchanged -/

/-- Drop trailing blank lines (without right-stripping the last
survivor); `trimTail` is this plus a right-strip of the last line. -/
def dtb (ls : List (List Char)) : List (List Char) :=
  (ls.reverse.dropWhile blankL).reverse

theorem map_stripL_trimTail (ls : List (List Char)) :
    (trimTail ls).map stripL = (dtb ls).map stripL := by
  unfold trimTail trimTailRev dtb
  rcases hd : ls.reverse.dropWhile blankL with _ | ⟨x, xs⟩
  · rfl
  · rw [List.map_reverse, List.map_reverse, List.map_cons, List.map_cons, stripL_rstripL]

theorem mem_dtb {x : List Char} {ls : List (List Char)} (h : x ∈ dtb ls) : x ∈ ls := by
  simp only [dtb, List.mem_reverse] at h
  exact List.mem_reverse.mp (mem_of_mem_dropWhile h)

theorem stripL_eq_nil_of_blank {b : List Char} (h : blankL b = true) : stripL b = [] := by
  have hall : ∀ c ∈ b, pyIsSpace c := (rstripL_eq_nil_iff b).mp ((blankL_iff b).mp h)
  have hl : lstripL b = [] := (lstripL_eq_nil_iff b).mpr hall
  simp [stripL, hl, rstripL]

theorem dtb_decomposition (ls : List (List Char)) :
    ∃ blanks, ls = dtb ls ++ blanks ∧ ∀ b ∈ blanks, stripL b = [] := by
  refine ⟨(ls.reverse.takeWhile blankL).reverse, ?_, ?_⟩
  · calc ls = ls.reverse.reverse := (List.reverse_reverse ls).symm
      _ = (ls.reverse.takeWhile blankL ++ ls.reverse.dropWhile blankL).reverse := by
          rw [List.takeWhile_append_dropWhile]
      _ = dtb ls ++ (ls.reverse.takeWhile blankL).reverse := by
          rw [List.reverse_append]; rfl
  · intro b hb
    rw [List.mem_reverse] at hb
    exact stripL_eq_nil_of_blank (List.mem_takeWhile_imp hb)

theorem mem_trimTail_structure {x : List Char} {ls : List (List Char)}
    (h : x ∈ trimTail ls) : ∃ y ∈ ls, x = y ∨ x = rstripL y := by
  simp only [trimTail, List.mem_reverse] at h
  unfold trimTailRev at h
  rcases hd : ls.reverse.dropWhile blankL with _ | ⟨z, zs⟩ <;> rw [hd] at h
  · simp at h
  · rcases List.mem_cons.mp h with h1 | h2
    · have hz : z ∈ ls := List.mem_reverse.mp
        (mem_of_mem_dropWhile (hd ▸ List.mem_cons_self z zs))
      exact ⟨z, hz, Or.inr h1⟩
    · have hz : x ∈ ls := List.mem_reverse.mp
        (mem_of_mem_dropWhile (hd ▸ List.mem_cons_of_mem z h2))
      exact ⟨x, hz, Or.inl rfl⟩

theorem nlFree_rstripL {l : List Char} (h : '\n' ∉ l) : '\n' ∉ rstripL l :=
  fun hh => h (mem_of_mem_rstripL hh)

theorem nlFree_trimTail {ls : List (List Char)} (h : ∀ l ∈ ls, '\n' ∉ l) :
    ∀ x ∈ trimTail ls, '\n' ∉ x := by
  intro x hx
  obtain ⟨y, hy, hxy⟩ := mem_trimTail_structure hx
  rcases hxy with rfl | rfl
  · exact h x hy
  · exact nlFree_rstripL (h y hy)

theorem cutoffIdx_trimTail_none_of_none {ls : List (List Char)}
    (h : cutoffIdx ls = none) : cutoffIdx (trimTail ls) = none := by
  rw [cutoffIdx_congr (map_stripL_trimTail ls)]
  obtain ⟨blanks, hdec, hb⟩ := dtb_decomposition ls
  exact cutoffIdx_of_append_blanks_none hb (hdec ▸ h)

theorem cutoffIdx_trimTail_none_of_nomatch {pre : List (List Char)}
    (h : ∀ l ∈ pre, stripL l ≠ [] → matchesCutoff (stripL l) = false) :
    cutoffIdx (trimTail pre) = none := by
  rw [cutoffIdx_congr (map_stripL_trimTail pre)]
  exact cutoffIdx_none_of_nomatch (fun x hx => h x (mem_dtb hx))

theorem clean_fixed_of_pre {pre : List (List Char)} (hnl : ∀ l ∈ pre, '\n' ∉ l)
    (hnone : cutoffIdx (trimTail pre) = none) :
    clean_model_output (rstripL (joinNL pre)) = rstripL (joinNL pre) := by
  have hx : rstripL (joinNL pre) = joinNL (trimTail pre) := rstripL_joinNL pre
  rcases htt : trimTail pre with _ | ⟨m, ms⟩
  · rw [hx, htt]
    decide
  · have hne : trimTail pre ≠ [] := by rw [htt]; simp
    have hsp : splitNL (rstripL (joinNL pre)) = trimTail pre := by
      rw [hx]; exact splitNL_joinNL (nlFree_trimTail hnl) hne
    simp only [clean_model_output, hsp, hnone]
    exact rstripL_rstripL _

/-! ### Claim C8 -/

/-- C8: the prose-cleanup function `clean_model_output` is idempotent:
for every input string `x`, `clean_model_output (clean_model_output x) =
clean_model_output x`. -/
theorem C8_clean_model_output_idempotent (t : List Char) :
    clean_model_output (clean_model_output t) = clean_model_output t := by
  rcases h : cutoffIdx (splitNL t) with _ | i
  · have hct : clean_model_output t = rstripL t := by
      simp only [clean_model_output, h]
    have ht : rstripL t = rstripL (joinNL (splitNL t)) := by rw [joinNL_splitNL]
    rw [hct, ht]
    exact clean_fixed_of_pre (nlFree_splitNL t) (cutoffIdx_trimTail_none_of_none h)
  · have hct : clean_model_output t = rstripL (joinNL ((splitNL t).take i)) := by
      simp only [clean_model_output, h]
    rw [hct]
    have hnl : ∀ l ∈ (splitNL t).take i, '\n' ∉ l := fun l hl =>
      nlFree_splitNL t l (List.mem_of_mem_take hl)
    exact clean_fixed_of_pre hnl
      (cutoffIdx_trimTail_none_of_nomatch (cutoffIdx_take_nomatch h))

/-! ### Claim C2 -/

/-- C2 (counterexample): on
`"Part one.\n---\nMore prose here.\nLet me know if you want more."`
the code truncates at the bare `---` line (output `"Part one."`) even
though the immediately following non-blank line `"More prose here."`
does not match any meta pattern — so the `---` is not preserved, and
the intervening non-meta prose is dropped, contradicting the claim that
a bare `---` is kept unless EVERY non-blank line after it matches. -/
theorem C2_counterexample :
    clean_model_output
        ("Part one.\n---\nMore prose here.\nLet me know if you want more.".toList)
      = "Part one.".toList
    ∧ matchesCutoff (stripL "More prose here.".toList) = false := by
  constructor <;> decide

/-- C2 (amended): `clean_model_output` truncates at a bare `---` line
exactly when there is no non-blank content after it or SOME (not every)
later non-blank line matches a meta pattern; only when no later
non-blank line matches is the `---` (and everything after it) kept, up
to trailing-whitespace stripping. Stated for a text beginning with the
`---` line, built from its newline-free lines. -/
theorem C2_amended_dash_cutoff (rest : List (List Char))
    (hnl : ∀ l ∈ rest, '\n' ∉ l) :
    clean_model_output (joinNL ("---".toList :: rest)) =
      if ((remAfter rest).isEmpty || (remAfter rest).any matchesCutoff) = true
      then []
      else rstripL (joinNL ("---".toList :: rest)) := by
  have hnl' : ∀ l ∈ ("---".toList :: rest), '\n' ∉ l := by
    intro l hl
    rcases List.mem_cons.mp hl with h1 | h2
    · subst h1; decide
    · exact hnl l h2
  have hsp : splitNL (joinNL ("---".toList :: rest)) = "---".toList :: rest :=
    splitNL_joinNL hnl' (by simp)
  have hsd : stripL "---".toList = "---".toList := by decide
  by_cases hc : ((remAfter rest).isEmpty || (remAfter rest).any matchesCutoff) = true
  · have hcut : cutoffIdx ("---".toList :: rest) = some 0 :=
      cutoffIdx_cons_dash_cut (by rw [hsd]; decide) (by rw [hsd]; decide)
        (by rw [hsd]; decide) hc
    simp only [clean_model_output, hsp, hcut, if_pos hc]
    rfl
  · have hc' : ((remAfter rest).isEmpty || (remAfter rest).any matchesCutoff) = false :=
      Bool.eq_false_iff.mpr hc
    have hany : (remAfter rest).any matchesCutoff = false :=
      (Bool.or_eq_false_iff.mp hc').2
    have hnomatch : ∀ l ∈ rest, stripL l ≠ [] → matchesCutoff (stripL l) = false := by
      intro l hl hls
      have hmem := stripL_mem_remAfter hl hls
      rcases hmt : matchesCutoff (stripL l) with _ | _
      · rfl
      · exact absurd (List.any_eq_true.mpr ⟨stripL l, hmem, hmt⟩) (by simp [hany])
    have hrest : cutoffIdx rest = none := cutoffIdx_none_of_nomatch hnomatch
    have hkeep : cutoffIdx ("---".toList :: rest) = none := by
      rw [cutoffIdx_cons_dash_keep (by rw [hsd]; decide) (by rw [hsd]; decide)
        (by rw [hsd]; decide) (by simpa using hc), hrest]
      rfl
    simp only [clean_model_output, hsp, hkeep, if_neg hc]

/-- C2 (amended, witness): with `rest = ["tail prose"]` (a non-meta
line after the `---`), the `---` line and the prose are preserved. -/
theorem C2_amended_dash_cutoff_witness :
    clean_model_output (joinNL ("---".toList :: ["tail prose".toList])) =
      rstripL (joinNL ("---".toList :: ["tail prose".toList])) := by
  have h := C2_amended_dash_cutoff ["tail prose".toList] (by decide)
  rw [if_neg (by decide)] at h
  exact h

/-! ### Context assembly (`context_service.py`)

`_assemble` only reads `node.content`, `node.summary`, and the three
entity text fields, so the embedded records carry exactly those. -/

structure CtxNode where
  content : String
  summary : Option String
deriving DecidableEq

structure CtxEntity where
  name : String
  entity_type : String
  description : String
deriving DecidableEq

/-- `CHARS_PER_TOKEN` (context_service.py:22). -/
def CHARS_PER_TOKEN : Nat := 4

/-- Python `sep.join(items)`. -/
def joinSep (sep : String) : List String → String
  | [] => ""
  | [s] => s
  | s :: rest => s ++ sep ++ joinSep sep rest

/-- Sum of the lengths of a list of strings. -/
def sumLens (l : List String) : Nat := (l.map String.length).sum

/-- The greedy per-section budget loop of `_assemble` (e.g.
context_service.py:201-206): items are appended in order, accumulating
their lengths into `used`, until one would push `used` past the
budget; that item and all later ones are dropped (Python `break`). -/
def takeWithin (budget : Nat) : Nat → List String → List String × Nat
  | used, [] => ([], used)
  | used, t :: rest =>
    if used + t.length > budget then ([], used)
    else
      let r := takeWithin budget (used + t.length) rest
      (t :: r.1, r.2)

/-- World-bible line (context_service.py:216). -/
def entityEntry (e : CtxEntity) : String :=
  "- " ++ e.name ++ " (" ++ e.entity_type ++ "): " ++ e.description

/-- Relevant-history text (context_service.py:230): summary if present,
else the first 300 characters of content plus an ellipsis. -/
def historyText (n : CtxNode) : String :=
  match n.summary with
  | some s => s
  | none => n.content.take 300 ++ "..."

/-- One section of `_assemble`: if the guard holds, run the budget
loop and emit `header ++ joined items` unless nothing fit; always
thread the running count. -/
def sectionStep (header sep : String) (guard : Bool) (budget used : Nat)
    (items : List String) : List String × Nat :=
  if guard then
    let r := takeWithin budget used items
    (if r.1.isEmpty then [] else [header ++ joinSep sep r.1], r.2)
  else ([], used)

/-- `ContextService._assemble` (context_service.py:183-248): three
labeled sections filled greedily in priority order under
`token_budget * CHARS_PER_TOKEN` characters of item text, sections
joined by blank lines.  Section 1 runs when `ancestors` is non-empty;
sections 2 and 3 additionally require `used < char_budget`. -/
def assemble (ancestors : List CtxNode) (similar_nodes : List CtxNode)
    (entities : List CtxEntity) (token_budget : Nat) : String :=
  let char_budget := token_budget * CHARS_PER_TOKEN
  let r1 := sectionStep "[RECENT SCENES]\n" "\n\n---\n\n" (!ancestors.isEmpty)
    char_budget 0 (ancestors.map (·.content))
  let r2 := sectionStep "[WORLD BIBLE]\n" "\n"
    (!entities.isEmpty && decide (r1.2 < char_budget))
    char_budget r1.2 (entities.map entityEntry)
  let r3 := sectionStep "[RELEVANT HISTORY]\n" "\n\n"
    (!similar_nodes.isEmpty && decide (r2.2 < char_budget))
    char_budget r2.2 (similar_nodes.map historyText)
  joinSep "\n\n" (r1.1 ++ r2.1 ++ r3.1)

theorem takeWithin_spec (budget : Nat) :
    ∀ (items : List String) (used : Nat), used ≤ budget →
      (takeWithin budget used items).2 ≤ budget ∧
      used + sumLens (takeWithin budget used items).1 =
        (takeWithin budget used items).2 ∧
      (takeWithin budget used items).1.length ≤ items.length := by
  intro items
  induction items with
  | nil => intro used h; simpa [takeWithin, sumLens] using h
  | cons t rest ih =>
    intro used h
    by_cases hb : used + t.length > budget
    · simp only [takeWithin, if_pos hb]
      simpa [sumLens] using h
    · have hle : used + t.length ≤ budget := Nat.le_of_not_lt hb
      obtain ⟨h1, h2, h3⟩ := ih (used + t.length) hle
      simp only [takeWithin, if_neg hb]
      refine ⟨h1, ?_, by simpa using Nat.succ_le_succ h3⟩
      simp only [sumLens, List.map_cons, List.sum_cons] at h2 ⊢
      omega

theorem joinSep_length_le (sep : String) :
    ∀ ts : List String, (joinSep sep ts).length ≤ sumLens ts + sep.length * ts.length := by
  intro ts
  induction ts with
  | nil => simp [joinSep, sumLens]
  | cons s rest ih =>
    cases rest with
    | nil => simp [joinSep, sumLens]
    | cons y r =>
      show (s ++ sep ++ joinSep sep (y :: r)).length ≤ _
      simp only [String.length_append, sumLens, List.map_cons, List.sum_cons,
        List.length_cons] at ih ⊢
      have hmul : ∀ n : Nat, sep.length * (n + 1) = sep.length * n + sep.length :=
        fun n => Nat.mul_succ _ n
      have h1 := hmul (r.length + 1)
      omega

theorem sectionStep_spec (header sep : String) (guard : Bool) (budget used : Nat)
    (items : List String) (h : used ≤ budget) :
    used ≤ (sectionStep header sep guard budget used items).2 ∧
    (sectionStep header sep guard budget used items).2 ≤ budget ∧
    sumLens (sectionStep header sep guard budget used items).1 ≤
      header.length + ((sectionStep header sep guard budget used items).2 - used) +
        sep.length * items.length ∧
    (sectionStep header sep guard budget used items).1.length ≤ 1 := by
  cases guard with
  | false => simp [sectionStep, sumLens, h]
  | true =>
    obtain ⟨h1, h2, h3⟩ := takeWithin_spec budget items used h
    have hsum : sumLens (takeWithin budget used items).1 =
        (takeWithin budget used items).2 - used := by omega
    by_cases he : ((takeWithin budget used items).1).isEmpty
    · simp only [sectionStep, if_pos, he, if_true]
      exact ⟨by omega, h1, by simp [sumLens], by simp⟩
    · have hne : ((takeWithin budget used items).1).isEmpty = false := by
        simpa using he
      simp only [sectionStep, if_pos, hne, Bool.false_eq_true, if_false]
      refine ⟨by omega, h1, ?_, by simp⟩
      have hj := joinSep_length_le sep (takeWithin budget used items).1
      rw [hsum] at hj
      have hsep : sep.length * ((takeWithin budget used items).1).length ≤
          sep.length * items.length := Nat.mul_le_mul_left _ h3
      simp only [sumLens, List.map_cons, List.map_nil, List.sum_cons, List.sum_nil,
        String.length_append]
      omega

theorem sumLens_append (a b : List String) :
    sumLens (a ++ b) = sumLens a + sumLens b := by
  simp [sumLens]

/-! ### Claim C1 -/

/-- C1 (counterexample): with a single ancestor of content `"aaaa"`
(4 characters) and `token_budget = 1`, the greedy loop admits the item
(`0 + 4 > 4` is false), but the rendered context is
`"[RECENT SCENES]\naaaa"` — 20 characters, exceeding
`token_budget × 4 = 4`: the section header is not counted against the
budget. -/
theorem C1_counterexample :
    (assemble [⟨"aaaa", none⟩] [] [] 1).length > 1 * 4 := by decide

/-- C1 (amended): only the item texts are counted against the
character budget, so the rendered context exceeds `token_budget × 4`
by at most the fixed section headers, the item separators, and the
blank lines joining sections: its length is bounded by
`token_budget × 4 + 55 + 7·|ancestors| + |entities| + 2·|similar|`. -/
theorem C1_amended_assemble_budget (ancestors similar_nodes : List CtxNode)
    (entities : List CtxEntity) (token_budget : Nat) :
    (assemble ancestors similar_nodes entities token_budget).length ≤
      token_budget * 4 + 55 + 7 * ancestors.length + entities.length +
        2 * similar_nodes.length := by
  have hct : CHARS_PER_TOKEN = 4 := rfl
  set cb := token_budget * CHARS_PER_TOKEN with hcb
  set R1 := sectionStep "[RECENT SCENES]\n" "\n\n---\n\n" (!ancestors.isEmpty)
    cb 0 (ancestors.map (·.content)) with hR1
  set R2 := sectionStep "[WORLD BIBLE]\n" "\n"
    (!entities.isEmpty && decide (R1.2 < cb)) cb R1.2 (entities.map entityEntry)
    with hR2
  set R3 := sectionStep "[RELEVANT HISTORY]\n" "\n\n"
    (!similar_nodes.isEmpty && decide (R2.2 < cb)) cb R2.2
    (similar_nodes.map historyText) with hR3
  show (joinSep "\n\n" (R1.1 ++ R2.1 ++ R3.1)).length ≤ _
  obtain ⟨h1a, h1b, h1c, h1d⟩ := sectionStep_spec "[RECENT SCENES]\n" "\n\n---\n\n"
    (!ancestors.isEmpty) cb 0 (ancestors.map (·.content)) (Nat.zero_le _)
  rw [← hR1] at h1a h1b h1c h1d
  obtain ⟨h2a, h2b, h2c, h2d⟩ := sectionStep_spec "[WORLD BIBLE]\n" "\n"
    (!entities.isEmpty && decide (R1.2 < cb)) cb R1.2 (entities.map entityEntry) h1b
  rw [← hR2] at h2a h2b h2c h2d
  obtain ⟨h3a, h3b, h3c, h3d⟩ := sectionStep_spec "[RELEVANT HISTORY]\n" "\n\n"
    (!similar_nodes.isEmpty && decide (R2.2 < cb)) cb R2.2
    (similar_nodes.map historyText) h2b
  rw [← hR3] at h3a h3b h3c h3d
  have e1 : ("[RECENT SCENES]\n").length = 16 := rfl
  have e2 : ("[WORLD BIBLE]\n").length = 14 := rfl
  have e3 : ("[RELEVANT HISTORY]\n").length = 19 := rfl
  have e4 : ("\n\n---\n\n").length = 7 := rfl
  have e5 : ("\n").length = 1 := rfl
  have e6 : ("\n\n").length = 2 := rfl
  rw [e1, e4, List.length_map] at h1c
  rw [e2, e5, List.length_map, Nat.one_mul] at h2c
  rw [e3, e6, List.length_map] at h3c
  have hj := joinSep_length_le "\n\n" (R1.1 ++ R2.1 ++ R3.1)
  rw [e6, sumLens_append, sumLens_append, List.length_append, List.length_append] at hj
  rw [hcb, hct] at h3b
  omega

/-! ### Content-mode selection (`story_service.py`, `writer_service.py`)

`self._writer_models` is the two-key dict
`{"unrestricted": ..., "safe": ...}` built in both constructors; its
`.get(content_mode, self._writer_models["unrestricted"])` is embedded
as a two-key lookup with the unrestricted model as default. -/

structure WriterModels where
  unrestricted : String
  safe : String
deriving DecidableEq

/-- Python `{"unrestricted": u, "safe": s}.get(key, default)`. -/
def writer_models_get (wm : WriterModels) (key deflt : String) : String :=
  if key = "unrestricted" then wm.unrestricted
  else if key = "safe" then wm.safe
  else deflt

/-- Apostrophe as a string, for prompt literals. -/
def apoS : String := String.singleton apoc

/-- `SYSTEM_PROMPT_UNRESTRICTED` (story_service.py:22-30). -/
def SYSTEM_PROMPT_UNRESTRICTED : String :=
  "You are a creative fiction writer collaborating with a reader on an interactive story. " ++
  "Continue the narrative based on the story so far and the reader" ++ apoS ++ "s direction. " ++
  "Write in vivid, engaging prose. Keep each scene to 2-4 paragraphs. " ++
  "End scenes at moments that invite the reader to choose what happens next. " ++
  "Do not break the fourth wall or mention that you are an AI. " ++
  "You have full creative freedom — explore any themes, emotions, or situations " ++
  "the story demands without restriction."

/-- `SYSTEM_PROMPT_SAFE` (story_service.py:32-40). -/
def SYSTEM_PROMPT_SAFE : String :=
  "You are a creative fiction writer collaborating with a reader on an interactive story. " ++
  "Continue the narrative based on the story so far and the reader" ++ apoS ++ "s direction. " ++
  "Write in vivid, engaging prose. Keep each scene to 2-4 paragraphs. " ++
  "End scenes at moments that invite the reader to choose what happens next. " ++
  "Do not break the fourth wall or mention that you are an AI. " ++
  "Keep content appropriate for a general audience — avoid graphic violence, " ++
  "explicit sexual content, and excessive profanity."

/-- Shared tail of the two writer prompts (writer_service.py:27-36 and
48-57, identical text). -/
def WRITER_STRICT_RULES : String :=
  "STRICT RULES — violating any of these ruins the story:\n" ++
  "- Output ONLY narrative prose. No meta-commentary, sign-offs, or questions to the reader " ++
  "(e.g. never write " ++ apoS ++ "Let me know if you would like me to continue" ++ apoS ++ ").\n" ++
  "- Never include [WORLD BIBLE], Scene plan:, or any formatting markers in your output.\n" ++
  "- Do not repeat the opening description at the end of the scene.\n" ++
  "- Text messages between characters must be described as text on a screen, not spoken aloud.\n" ++
  "- Maintain physical consistency: whoever is driving stays driving unless the scene " ++
  "shows them switching. Track spatial positions (inside/outside, seated/standing).\n" ++
  "- Time of day must progress naturally — the sun sets once, not repeatedly."

/-- `WRITER_SYSTEM_UNRESTRICTED` (writer_service.py:17-36). -/
def WRITER_SYSTEM_UNRESTRICTED : String :=
  "You are a creative fiction writer collaborating with a reader on an interactive story. " ++
  "You will be given a scene plan (beat) and story context. " ++
  "Expand the beat into vivid, engaging prose — 2-4 paragraphs. " ++
  "Follow the beat" ++ apoS ++ "s structure (setting, characters, events, tone) but do NOT " ++
  "echo the beat verbatim or reference it as a plan. Write naturally as narrative prose. " ++
  "End at a moment that invites the reader to choose what happens next. " ++
  "Do not break the fourth wall or mention that you are an AI. " ++
  "You have full creative freedom — explore any themes, emotions, or situations " ++
  "the story demands without restriction.\n\n" ++ WRITER_STRICT_RULES

/-- `WRITER_SYSTEM_SAFE` (writer_service.py:38-57). -/
def WRITER_SYSTEM_SAFE : String :=
  "You are a creative fiction writer collaborating with a reader on an interactive story. " ++
  "You will be given a scene plan (beat) and story context. " ++
  "Expand the beat into vivid, engaging prose — 2-4 paragraphs. " ++
  "Follow the beat" ++ apoS ++ "s structure (setting, characters, events, tone) but do NOT " ++
  "echo the beat verbatim or reference it as a plan. Write naturally as narrative prose. " ++
  "End at a moment that invites the reader to choose what happens next. " ++
  "Do not break the fourth wall or mention that you are an AI. " ++
  "Keep content appropriate for a general audience — avoid graphic violence, " ++
  "explicit sexual content, and excessive profanity.\n\n" ++ WRITER_STRICT_RULES

/-- `StoryGenerationService._get_writer_model` (story_service.py:72-73). -/
def get_writer_model (wm : WriterModels) (content_mode : String) : String :=
  writer_models_get wm content_mode wm.unrestricted

/-- `StoryGenerationService._get_system_prompt` (story_service.py:75-78). -/
def get_system_prompt (content_mode : String) : String :=
  if content_mode = "safe" then SYSTEM_PROMPT_SAFE
  else SYSTEM_PROMPT_UNRESTRICTED

/-- `WriterService._get_model` (writer_service.py:135-136). -/
def writer_get_model (wm : WriterModels) (content_mode : String) : String :=
  writer_models_get wm content_mode wm.unrestricted

/-- `WriterService._get_system_prompt` (writer_service.py:138-141). -/
def writer_get_system_prompt (content_mode : String) : String :=
  if content_mode = "safe" then WRITER_SYSTEM_SAFE
  else WRITER_SYSTEM_UNRESTRICTED

/-! ### Claim C10 -/

/-- C10: for every `content_mode` other than the exact string
`"safe"` — including values outside the documented domain — scene
generation selects the unrestricted writer model and the unrestricted
system prompt, in both the single-model path
(`StoryGenerationService`) and the MoA writer path (`WriterService`). -/
theorem C10_unknown_mode_is_unrestricted (wm : WriterModels) (mode : String)
    (h : mode ≠ "safe") :
    get_writer_model wm mode = wm.unrestricted ∧
    get_system_prompt mode = SYSTEM_PROMPT_UNRESTRICTED ∧
    writer_get_model wm mode = wm.unrestricted ∧
    writer_get_system_prompt mode = WRITER_SYSTEM_UNRESTRICTED := by
  refine ⟨?_, ?_, ?_, ?_⟩
  · by_cases hu : mode = "unrestricted" <;>
      simp [get_writer_model, writer_models_get, hu, h]
  · simp [get_system_prompt, h]
  · by_cases hu : mode = "unrestricted" <;>
      simp [writer_get_model, writer_models_get, hu, h]
  · simp [writer_get_system_prompt, h]

/-- C10 (witness): the out-of-domain mode `"balanced"` selects the
unrestricted model and prompts. -/
theorem C10_unknown_mode_is_unrestricted_witness :
    get_writer_model ⟨"modelU", "modelS"⟩ "balanced" = "modelU" ∧
    get_system_prompt "balanced" = SYSTEM_PROMPT_UNRESTRICTED ∧
    writer_get_model ⟨"modelU", "modelS"⟩ "balanced" = "modelU" ∧
    writer_get_system_prompt "balanced" = WRITER_SYSTEM_UNRESTRICTED :=
  C10_unknown_mode_is_unrestricted ⟨"modelU", "modelS"⟩ "balanced" (by decide)

/-! ### Beat planning (`planner_service.py`)

A beat after `_parse_beat` always carries the six schema keys (the
parser `setdefault`s them) and no `unknown_characters` key (only the
cross-reference step below ever writes it); `unknown_characters` is
`none` while the key is absent.  The world-bible entities handed to
`plan_beat` are the dicts built by
`StoryGenerationService._get_world_bible_entities`
(`{"name", "type", "description"}`). -/

structure UnknownChar where
  name : String
  entity_type : String
  description : String
  base_prompt : String
deriving DecidableEq

structure Beat where
  setting : String
  characters_present : List String
  key_events : List String
  emotional_tone : String
  continuity_notes : String
  continuity_warnings : List String
  unknown_characters : Option (List UnknownChar)
deriving DecidableEq

structure EntityDict where
  name : String
  type : String
  description : String
deriving DecidableEq

/-- Python `str.lower()` (ASCII case mapping, which is all the code
compares). -/
def lowerS (s : String) : String := String.mk (s.toList.map Char.toLower)

/-- Python substring containment `needle in hay`. -/
def subIn (needle hay : List Char) : Bool := decide (needle <:+: hay)

/-- `PlannerService._extract_character_context`
(planner_service.py:137-146): the key events mentioning the name
(case-insensitive substring), joined by `"; "`, or a generic
`"Character appearing in: <setting>"` fallback. -/
def extract_character_context (beat : Beat) (name : String) : String :=
  let parts := beat.key_events.filter
    (fun event => subIn (lowerS name).toList (lowerS event).toList)
  if parts.isEmpty then
    joinSep "; " ["Character appearing in: " ++ beat.setting]
  else joinSep "; " parts

/-- `PlannerService._build_character_prompt`
(planner_service.py:148-158): `"portrait of <name>"` plus the setting
and `"<tone> atmosphere"` when non-empty, joined by `", "`. -/
def build_character_prompt (beat : Beat) (name : String) : String :=
  let prompt_parts := ["portrait of " ++ name]
  let prompt_parts :=
    if beat.setting ≠ "" then prompt_parts ++ [beat.setting] else prompt_parts
  let prompt_parts :=
    if beat.emotional_tone ≠ "" then prompt_parts ++ [beat.emotional_tone ++ " atmosphere"]
    else prompt_parts
  joinSep ", " prompt_parts

/-- The list comprehension over unmatched names
(planner_service.py:109-112). -/
def unknown_of (wb : List EntityDict) (beat : Beat) : List String :=
  beat.characters_present.filter
    (fun n => !((wb.map (fun e => lowerS e.name)).contains (lowerS n)))

/-- The world-bible cross-reference step of `plan_beat`
(planner_service.py:106-127).  The surrounding Python guard is
`if world_bible_entities:`, so the whole block is skipped when the
argument is `None` or the empty list. -/
def validate_characters (world_bible_entities : Option (List EntityDict))
    (beat : Beat) : Beat :=
  match world_bible_entities with
  | none => beat
  | some wb =>
    if wb.isEmpty then beat
    else
      let unknown := unknown_of wb beat
      if unknown.isEmpty then beat
      else
        { beat with
          continuity_warnings := beat.continuity_warnings ++
            ["Unknown characters (not in world bible): " ++ joinSep ", " unknown],
          unknown_characters := some (unknown.map (fun name =>
            { name := name
              entity_type := "character"
              description := extract_character_context beat name
              base_prompt := build_character_prompt beat name })) }

theorem joinSep_head_length_le (sep p : String) (rest : List String) :
    p.length ≤ (joinSep sep (p :: rest)).length := by
  cases rest with
  | nil => simp [joinSep]
  | cons y r =>
    show p.length ≤ (p ++ sep ++ joinSep sep (y :: r)).length
    rw [String.length_append, String.length_append]
    omega

theorem toList_append (a b : String) : (a ++ b).toList = a.toList ++ b.toList :=
  String.data_append a b

/-- A name is contained in any `", "`-joined list headed by
`"portrait of " ++ name`. -/
theorem head_infix_joinSep (n x : String) (hpre : n.toList <:+: x.toList) :
    ∀ rest : List String, n.toList <:+: (joinSep ", " (x :: rest)).toList := by
  intro rest
  cases rest with
  | nil => exact hpre
  | cons y r =>
    show n.toList <:+: ((x ++ ", " ++ joinSep ", " (y :: r))).toList
    rw [toList_append, toList_append]
    exact hpre.trans ((List.prefix_append _ _).isInfix.trans
      (List.prefix_append _ _).isInfix)

theorem mapped_names_eq (beat : Beat) : ∀ l : List String,
    (l.map (fun name => (⟨name, "character", extract_character_context beat name,
      build_character_prompt beat name⟩ : UnknownChar))).map (·.name) = l := by
  intro l
  induction l with
  | nil => rfl
  | cons x r ih => simp only [List.map_cons, ih]

theorem length_pos_ne_empty {s : String} (h : 0 < s.length) : s ≠ "" := by
  intro hs
  rw [hs] at h
  exact absurd h (by decide)

/-! ### Claim C3 -/

/-- C3 (counterexample): with the EMPTY known-entity set, the
cross-reference block is skipped entirely (`if world_bible_entities:`
is falsy), so a beat listing the single unmatched character `"Alice"`
comes back with NO `unknown_characters` list at all, not a 1-entry
one. -/
theorem C3_counterexample :
    (validate_characters (some [])
        ⟨"forest", ["Alice"], ["Alice enters"], "calm", "", [], none⟩).unknown_characters
      = none
    ∧ (⟨"forest", ["Alice"], ["Alice enters"], "calm", "", [], none⟩ :
        Beat).characters_present.length = 1 := by
  constructor <;> decide

/-- C3 (amended): for every NON-EMPTY known-entity set and every beat
(with no pre-existing `unknown_characters` key and non-empty character
names), the returned beat's `unknown_characters` has exactly one entry
per unmatched name of `characters_present` (case-insensitive match),
in order, each with a non-empty synthesized description and a
base_prompt containing that character's name.  With an empty or absent
known-entity set the cross-reference is skipped and no
`unknown_characters` key is written. -/
theorem C3_amended_unknown_characters (wb : List EntityDict) (beat : Beat)
    (hwb : wb ≠ []) (h0 : beat.unknown_characters = none)
    (hnames : ∀ n ∈ beat.characters_present, n ≠ "") :
    ((validate_characters (some wb) beat).unknown_characters.getD []).map (·.name)
      = unknown_of wb beat
    ∧ ((validate_characters (some wb) beat).unknown_characters.getD []).length
      = (unknown_of wb beat).length
    ∧ ∀ uc ∈ (validate_characters (some wb) beat).unknown_characters.getD [],
        uc.description ≠ "" ∧ subIn uc.name.toList uc.base_prompt.toList = true := by
  have hwbe : wb.isEmpty = false := by
    cases wb with
    | nil => exact absurd rfl hwb
    | cons _ _ => rfl
  by_cases hu : (unknown_of wb beat).isEmpty
  · have hu' : unknown_of wb beat = [] := by simpa [List.isEmpty_iff] using hu
    simp only [validate_characters, hwbe, Bool.false_eq_true, if_false, hu, if_true,
      h0, Option.getD_none]
    simp [hu']
  · have hu' : (unknown_of wb beat).isEmpty = false := by simpa using hu
    simp only [validate_characters, hwbe, Bool.false_eq_true, if_false, hu',
      Option.getD_some]
    refine ⟨mapped_names_eq beat _, by simp, ?_⟩
    intro uc hc
    rcases List.mem_map.mp hc with ⟨n, hn, huc⟩
    have hmem : n ∈ beat.characters_present := List.mem_of_mem_filter hn
    have hne : n ≠ "" := hnames n hmem
    have hnlen : 0 < n.length := by
      cases n with
      | mk data =>
        cases data with
        | nil => exact absurd rfl hne
        | cons c cs =>
          have hcc : (String.mk (c :: cs)).length = cs.length + 1 := rfl
          omega
    subst huc
    constructor
    · show extract_character_context beat n ≠ ""
      simp only [extract_character_context]
      by_cases hp : (beat.key_events.filter
          (fun event => subIn (lowerS n).toList (lowerS event).toList)).isEmpty
      · simp only [hp, if_true]
        apply length_pos_ne_empty
        have hj := joinSep_head_length_le "; " ("Character appearing in: " ++ beat.setting) []
        have hlen : 0 < ("Character appearing in: " ++ beat.setting).length := by
          rw [String.length_append]
          have h24 : 0 < ("Character appearing in: ").length := by decide
          omega
        omega
      · have hp' : (beat.key_events.filter
            (fun event => subIn (lowerS n).toList (lowerS event).toList)).isEmpty
              = false := by simpa using hp
        simp only [hp', Bool.false_eq_true, if_false]
        rcases hfe : beat.key_events.filter
            (fun event => subIn (lowerS n).toList (lowerS event).toList) with
          _ | ⟨p, rest⟩
        · rw [hfe] at hp'; simp at hp'
        · have hpmem : p ∈ beat.key_events.filter
              (fun event => subIn (lowerS n).toList (lowerS event).toList) := by
            rw [hfe]; exact List.mem_cons_self p rest
          have hpred := List.of_mem_filter hpmem
          have hinf : (lowerS n).toList <:+: (lowerS p).toList :=
            of_decide_eq_true (by simpa [subIn] using hpred)
          have hlp : (lowerS n).toList.length ≤ (lowerS p).toList.length :=
            hinf.length_le
          have hlen : 0 < p.length := by
            have h1 : (lowerS n).toList.length = n.length := by
              show (n.toList.map Char.toLower).length = n.length
              rw [List.length_map]; rfl
            have h2 : (lowerS p).toList.length = p.length := by
              show (p.toList.map Char.toLower).length = p.length
              rw [List.length_map]; rfl
            omega
          apply length_pos_ne_empty
          have hj := joinSep_head_length_le "; " p rest
          omega
    · show subIn n.toList (build_character_prompt beat n).toList = true
      have hpre : n.toList <:+: ("portrait of " ++ n).toList := by
        refine ⟨"portrait of ".toList, [], ?_⟩
        rw [toList_append]
        simp
      apply decide_eq_true
      simp only [build_character_prompt]
      by_cases hs : beat.setting = ""
      · by_cases ht : beat.emotional_tone = ""
        · rw [if_neg (fun hc2 => hc2 ht), if_neg (fun hc2 => hc2 hs)]
          exact head_infix_joinSep n _ hpre []
        · rw [if_pos ht, if_neg (fun hc2 => hc2 hs), List.singleton_append]
          exact head_infix_joinSep n _ hpre _
      · by_cases ht : beat.emotional_tone = ""
        · rw [if_neg (fun hc2 => hc2 ht), if_pos hs, List.singleton_append]
          exact head_infix_joinSep n _ hpre _
        · rw [if_pos ht, if_pos hs, List.singleton_append, List.cons_append]
          exact head_infix_joinSep n _ hpre _

/-- C3 (amended, witness): `"Bob"` is unknown against a world bible
containing only `"Alice"`; the returned beat materializes exactly one
unknown-character entry for Bob. -/
theorem C3_amended_unknown_characters_witness :
    ((validate_characters (some [⟨"Alice", "character", "a friend"⟩])
        ⟨"forest", ["Alice", "Bob"], ["Bob runs ahead"], "calm", "", [],
          none⟩).unknown_characters.getD []).map (·.name)
      = unknown_of [⟨"Alice", "character", "a friend"⟩]
          ⟨"forest", ["Alice", "Bob"], ["Bob runs ahead"], "calm", "", [], none⟩
    ∧ ((validate_characters (some [⟨"Alice", "character", "a friend"⟩])
        ⟨"forest", ["Alice", "Bob"], ["Bob runs ahead"], "calm", "", [],
          none⟩).unknown_characters.getD []).length
      = (unknown_of [⟨"Alice", "character", "a friend"⟩]
          ⟨"forest", ["Alice", "Bob"], ["Bob runs ahead"], "calm", "", [], none⟩).length
    ∧ ∀ uc ∈ (validate_characters (some [⟨"Alice", "character", "a friend"⟩])
        ⟨"forest", ["Alice", "Bob"], ["Bob runs ahead"], "calm", "", [],
          none⟩).unknown_characters.getD [],
        uc.description ≠ "" ∧ subIn uc.name.toList uc.base_prompt.toList = true :=
  C3_amended_unknown_characters [⟨"Alice", "character", "a friend"⟩]
    ⟨"forest", ["Alice", "Bob"], ["Bob runs ahead"], "calm", "", [], none⟩
    (by decide) (by decide) (by decide)

/-! ### JSON values and the model-output repair parsers

`json.loads` is Python stdlib, external to the repository; it enters
the embedding as an oracle `parse : List Char → Option Json` (`none` =
`JSONDecodeError`).  A successful parse can only yield these value
shapes.  Model-backend calls are `Except Err` outcomes: `.error`
models an `OllamaService` transport/generation exception. -/

inductive Json : Type
  | null : Json
  | bool (b : Bool) : Json
  | num (n : Int) : Json
  | str (s : List Char) : Json
  | arr (items : List Json) : Json
  | obj (fields : List (List Char × Json)) : Json

inductive ErrKind : Type
  | unavailable
  | timeout
  | modelNotFound
  | generation
  | validation
deriving DecidableEq

/-- One raised exception from the service layer
(`app/core/exceptions.py` taxonomy); `msg` models `str(e)`. -/
structure Err where
  kind : ErrKind
  msg : String
deriving DecidableEq

def errText (e : Err) : List Char := e.msg.toList

/-- Fence stripping in `AssetService.detect_entities`
(asset_service.py:61-66): strip, and if the text starts with a fence,
drop every line starting with a fence and rejoin (no trailing strip). -/
def strip_fences_asset (raw : List Char) : List Char :=
  let cleaned := stripL raw
  if "```".toList.isPrefixOf cleaned then
    joinNL ((splitNL cleaned).filter
      (fun l => !("```".toList.isPrefixOf (stripL l))))
  else cleaned

/-- Fence stripping in `PlannerService._parse_beat` and
`_parse_continuity` (planner_service.py:162-168, 260-264): same, but
the rejoined text is stripped again. -/
def strip_fences_planner (raw : List Char) : List Char :=
  let text := stripL raw
  if "```".toList.isPrefixOf text then
    stripL (joinNL ((splitNL text).filter
      (fun l => !("```".toList.isPrefixOf (stripL l)))))
  else text

def required_keys : List (List Char) :=
  ["name".toList, "entity_type".toList, "description".toList, "base_prompt".toList]

def hasKey (fields : List (List Char × Json)) (k : List Char) : Bool :=
  fields.any (fun p => p.1 == k)

/-- `isinstance(entity, dict) and required.issubset(entity.keys())`
(asset_service.py:82). -/
def is_valid_entity : Json → Bool
  | Json.obj fields => required_keys.all (fun k => hasKey fields k)
  | _ => false

/-- The validation loop of `detect_entities` (asset_service.py:79-86). -/
def valid_entities : List Json → List Json
  | [] => []
  | e :: rest =>
    if is_valid_entity e then e :: valid_entities rest else valid_entities rest

/-- `AssetService.detect_entities` (asset_service.py:40-88): the model
call outcome is passed in; a transport error propagates unchanged, a
parse failure or a non-array parse yields `[]`, and an array keeps
exactly the objects carrying all four required keys. -/
def detect_entities (parse : List Char → Option Json)
    (outcome : Except Err (List Char)) : Except Err (List Json) :=
  match outcome with
  | .error e => .error e
  | .ok raw =>
    match parse (strip_fences_asset raw) with
    | none => .ok []
    | some (Json.arr entities) => .ok (valid_entities entities)
    | some _ => .ok []

theorem mem_valid_entities (items : List Json) (x : Json) :
    x ∈ valid_entities items ↔ x ∈ items ∧ is_valid_entity x = true := by
  induction items with
  | nil => simp [valid_entities]
  | cons e rest ih =>
    by_cases h : is_valid_entity e
    · simp only [valid_entities, h, if_true, List.mem_cons]
      constructor
      · rintro (rfl | hx)
        · exact ⟨Or.inl rfl, h⟩
        · obtain ⟨h1, h2⟩ := ih.mp hx
          exact ⟨Or.inr h1, h2⟩
      · rintro ⟨rfl | h1, h2⟩
        · exact Or.inl rfl
        · exact Or.inr (ih.mpr ⟨h1, h2⟩)
    · have h' : is_valid_entity e = false := by simpa using h
      simp only [valid_entities, h', Bool.false_eq_true, if_false, List.mem_cons]
      constructor
      · intro hx
        obtain ⟨h1, h2⟩ := ih.mp hx
        exact ⟨Or.inr h1, h2⟩
      · rintro ⟨rfl | h1, h2⟩
        · exact absurd h2 (by simp [h'])
        · exact ih.mpr ⟨h1, h2⟩

/-! ### Claim C4 -/

/-- C4: `detect_entities` propagates transport errors unchanged;
returns `[]` when the fence-stripped text fails to parse or parses to
a non-array; and for an array returns exactly the elements that are
objects carrying all four keys `name`, `entity_type`, `description`,
`base_prompt` (in order, others dropped).  It is a total function of
the parse and call outcomes — it cannot raise on malformed model
output. -/
theorem C4_detect_entities_spec (parse : List Char → Option Json)
    (outcome : Except Err (List Char)) :
    (∀ e, outcome = .error e → detect_entities parse outcome = .error e)
    ∧ (∀ raw, outcome = .ok raw → parse (strip_fences_asset raw) = none →
        detect_entities parse outcome = .ok [])
    ∧ (∀ raw j, outcome = .ok raw → parse (strip_fences_asset raw) = some j →
        (∀ items, j ≠ Json.arr items) → detect_entities parse outcome = .ok [])
    ∧ (∀ raw items, outcome = .ok raw →
        parse (strip_fences_asset raw) = some (Json.arr items) →
        detect_entities parse outcome = .ok (valid_entities items)
        ∧ ∀ x, x ∈ valid_entities items ↔ x ∈ items ∧ is_valid_entity x = true) := by
  refine ⟨?_, ?_, ?_, ?_⟩
  · intro e he; subst he; rfl
  · intro raw ho hp; subst ho; simp [detect_entities, hp]
  · intro raw j ho hp hj; subst ho
    cases j with
    | arr items => exact absurd rfl (hj items)
    | null => simp [detect_entities, hp]
    | bool b => simp [detect_entities, hp]
    | num n => simp [detect_entities, hp]
    | str s => simp [detect_entities, hp]
    | obj fields => simp [detect_entities, hp]
  · intro raw items ho hp; subst ho
    exact ⟨by simp [detect_entities, hp], mem_valid_entities items⟩

/-- C4 (witness): a parse oracle that always fails on the stripped
output yields the empty detection list, not an exception. -/
theorem C4_detect_entities_spec_witness :
    detect_entities (fun _ => none) (.ok "this is not json".toList) = .ok [] :=
  (C4_detect_entities_spec (fun _ => none)
    (.ok "this is not json".toList)).2.1 _ rfl rfl

/-! ### Continuity checking (`planner_service.py:197-290`) -/

/-- Python `text.find(c)` (first index, or none). -/
def findIdxC (c : Char) (text : List Char) : Option Nat :=
  text.findIdx? (· == c)

/-- Python `text.rfind(c)` (last index, or none). -/
def rfindIdxC (c : Char) (text : List Char) : Option Nat :=
  match text.reverse.findIdx? (· == c) with
  | none => none
  | some k => some (text.length - 1 - k)

/-- The bracket-span retry of `_parse_continuity`
(planner_service.py:269-278): `start = text.find("[")`,
`end = text.rfind("]") + 1`, and `text[start:end]` when
`start >= 0 and end > start`. -/
def bracket_span (text : List Char) : Option (List Char) :=
  match findIdxC '[' text, rfindIdxC ']' text with
  | some s, some e => if e + 1 > s then some ((text.drop s).take (e + 1 - s)) else none
  | _, _ => none

/-- The synthetic issue of `_parse_continuity`
(planner_service.py:276/278). -/
def synthetic_parse_failure : Json :=
  Json.obj [("scene".toList, Json.num 0),
    ("issue".toList, Json.str "Failed to parse continuity response".toList),
    ("severity".toList, Json.str "error".toList)]

/-- The synthetic issue for a non-list parse result
(planner_service.py:281). -/
def unexpected_format_issue : Json :=
  Json.obj [("scene".toList, Json.num 0),
    ("issue".toList, Json.str "Unexpected response format".toList),
    ("severity".toList, Json.str "error".toList)]

/-- `item.setdefault("severity", "warning")`
(planner_service.py:287). -/
def set_default_severity : Json → Json
  | Json.obj fields =>
    if hasKey fields "severity".toList then Json.obj fields
    else Json.obj (fields ++ [("severity".toList, Json.str "warning".toList)])
  | j => j

/-- The issue-validation loop (planner_service.py:284-290): keep
objects carrying `scene` and `issue` keys, defaulting `severity`. -/
def valid_issues : List Json → List Json
  | [] => []
  | item :: rest =>
    match item with
    | Json.obj fields =>
      if hasKey fields "scene".toList && hasKey fields "issue".toList then
        set_default_severity (Json.obj fields) :: valid_issues rest
      else valid_issues rest
    | _ => valid_issues rest

/-- The post-parse tail of `_parse_continuity`
(planner_service.py:280-290). -/
def finish_continuity : Json → List Json
  | Json.arr items => valid_issues items
  | _ => [unexpected_format_issue]

/-- `PlannerService._parse_continuity` (planner_service.py:258-290). -/
def parse_continuity (parse : List Char → Option Json) (raw : List Char) :
    List Json :=
  let text := strip_fences_planner raw
  match parse text with
  | some result => finish_continuity result
  | none =>
    match bracket_span text with
    | some span =>
      match parse span with
      | some result => finish_continuity result
      | none => [synthetic_parse_failure]
    | none => [synthetic_parse_failure]

/-- The synthetic issue built in `check_continuity` when the model
call itself fails (planner_service.py:253). -/
def continuity_error_issue (e : Err) : Json :=
  Json.obj [("scene".toList, Json.num 0),
    ("issue".toList, Json.str ("Continuity check failed: ".toList ++ errText e)),
    ("severity".toList, Json.str "error".toList)]

/-- `PlannerService.check_continuity` (planner_service.py:197-256):
the model-call outcome is passed in; every failure is converted to a
synthetic issue list, never re-raised. -/
def check_continuity (parse : List Char → Option Json)
    (outcome : Except Err (List Char)) : List Json :=
  match outcome with
  | .error e => [continuity_error_issue e]
  | .ok raw => parse_continuity parse raw

theorem hasKey_append_self (fields : List (List Char × Json)) (k : List Char)
    (v : Json) : hasKey (fields ++ [(k, v)]) k = true := by
  simp [hasKey, List.any_append]

theorem valid_issues_severity (items : List Json) :
    ∀ j ∈ valid_issues items,
      ∃ fields, j = Json.obj fields ∧ hasKey fields "severity".toList = true := by
  induction items with
  | nil => intro j hj; simp [valid_issues] at hj
  | cons item rest ih =>
    intro j hj
    match item with
    | Json.obj fields =>
      by_cases hk : (hasKey fields "scene".toList && hasKey fields "issue".toList) = true
      · simp only [valid_issues, hk, if_true] at hj
        rcases List.mem_cons.mp hj with h1 | h2
        · subst h1
          by_cases hs : hasKey fields "severity".toList
          · refine ⟨fields, ?_, hs⟩
            simp only [set_default_severity]
            rw [if_pos hs]
          · refine ⟨fields ++ [("severity".toList, Json.str "warning".toList)], ?_, ?_⟩
            · simp only [set_default_severity]
              rw [if_neg hs]
            · exact hasKey_append_self fields _ _
        · exact ih j h2
      · have hk' : (hasKey fields "scene".toList && hasKey fields "issue".toList)
            = false := by simpa using hk
        simp only [valid_issues, hk', Bool.false_eq_true, if_false] at hj
        exact ih j hj
    | Json.null => simp only [valid_issues] at hj; exact ih j hj
    | Json.bool b => simp only [valid_issues] at hj; exact ih j hj
    | Json.num n => simp only [valid_issues] at hj; exact ih j hj
    | Json.str s => simp only [valid_issues] at hj; exact ih j hj
    | Json.arr a => simp only [valid_issues] at hj; exact ih j hj

/-! ### Claim C5 -/

/-- C5: `check_continuity` never raises — it is a total function of
the parse and model-call outcomes.  A failed model call yields exactly
one synthetic issue with scene 0 whose text names the failure; a
response that cannot be parsed as JSON at all (fence-stripped parse
fails, and the bracket-span retry is absent or also fails) yields
exactly the one synthetic scene-0 parse-failure issue; and every
returned issue object carries a `severity` key, `"warning"` having
been filled in wherever it was missing. -/
theorem C5_check_continuity_failsoft (parse : List Char → Option Json)
    (outcome : Except Err (List Char)) :
    (∀ e, outcome = .error e →
        check_continuity parse outcome
          = [Json.obj [("scene".toList, Json.num 0),
              ("issue".toList,
                Json.str ("Continuity check failed: ".toList ++ errText e)),
              ("severity".toList, Json.str "error".toList)]])
    ∧ (∀ raw, outcome = .ok raw →
        parse (strip_fences_planner raw) = none →
        bracket_span (strip_fences_planner raw) = none →
        check_continuity parse outcome = [synthetic_parse_failure])
    ∧ (∀ raw span, outcome = .ok raw →
        parse (strip_fences_planner raw) = none →
        bracket_span (strip_fences_planner raw) = some span →
        parse span = none →
        check_continuity parse outcome = [synthetic_parse_failure])
    ∧ (∀ j ∈ check_continuity parse outcome,
        ∃ fields, j = Json.obj fields ∧ hasKey fields "severity".toList = true) := by
  refine ⟨?_, ?_, ?_, ?_⟩
  · intro e he; subst he; rfl
  · intro raw ho hp hb; subst ho
    simp [check_continuity, parse_continuity, hp, hb]
  · intro raw span ho hp hb hps; subst ho
    simp [check_continuity, parse_continuity, hp, hb, hps]
  · have hfin : ∀ r j, j ∈ finish_continuity r →
        ∃ fields, j = Json.obj fields ∧ hasKey fields "severity".toList = true := by
      intro r j hj
      match r with
      | Json.arr items => exact valid_issues_severity items j hj
      | Json.null =>
        simp only [finish_continuity, List.mem_singleton] at hj
        subst hj
        exact ⟨_, rfl, by decide⟩
      | Json.bool b =>
        simp only [finish_continuity, List.mem_singleton] at hj
        subst hj
        exact ⟨_, rfl, by decide⟩
      | Json.num n =>
        simp only [finish_continuity, List.mem_singleton] at hj
        subst hj
        exact ⟨_, rfl, by decide⟩
      | Json.str s =>
        simp only [finish_continuity, List.mem_singleton] at hj
        subst hj
        exact ⟨_, rfl, by decide⟩
      | Json.obj fs =>
        simp only [finish_continuity, List.mem_singleton] at hj
        subst hj
        exact ⟨_, rfl, by decide⟩
    intro j hj
    match outcome with
    | .error e =>
      simp only [check_continuity, List.mem_singleton] at hj
      subst hj
      exact ⟨_, rfl, hasKey_append_self
        [("scene".toList, Json.num 0),
         ("issue".toList,
           Json.str ("Continuity check failed: ".toList ++ errText e))]
        "severity".toList (Json.str "error".toList)⟩
    | .ok raw =>
      rcases hp : parse (strip_fences_planner raw) with _ | r
      · rcases hb : bracket_span (strip_fences_planner raw) with _ | span
        · simp only [check_continuity, parse_continuity, hp, hb,
            List.mem_singleton] at hj
          subst hj
          exact ⟨_, rfl, by decide⟩
        · rcases hps : parse span with _ | r2
          · simp only [check_continuity, parse_continuity, hp, hb, hps,
              List.mem_singleton] at hj
            subst hj
            exact ⟨_, rfl, by decide⟩
          · simp only [check_continuity, parse_continuity, hp, hb, hps] at hj
            exact hfin r2 j hj
      · simp only [check_continuity, parse_continuity, hp] at hj
        exact hfin r j hj

/-- C5 (witness): a model response with no parsable JSON and no
bracket span yields exactly the synthetic scene-0 issue. -/
theorem C5_check_continuity_failsoft_witness :
    check_continuity (fun _ => none) (.ok "total garbage".toList)
      = [synthetic_parse_failure] :=
  (C5_check_continuity_failsoft (fun _ => none)
    (.ok "total garbage".toList)).2.1 _ rfl rfl (by decide)

/-! ### Beat parsing and planning (`planner_service.py:41-195`)

`json.loads` plus the `setdefault` key-filling of `_parse_beat` is
modelled as a `Beat`-valued oracle (a successful parse hands back the
default-filled beat); the repair structure around it — fence
stripping, brace-span retry, fallback beat — is embedded from the
source. -/

def FALLBACK_BEAT : Beat :=
  ⟨"Continuing from previous scene", [],
   ["Continue the story based on reader direction"],
   "Determined by context", "",
   ["Planner produced invalid output — using fallback beat"], none⟩

def lbrace : Char := Char.ofNat 123
def rbrace : Char := Char.ofNat 125

/-- The brace-span retry of `_parse_beat` (planner_service.py:174-182):
`start = text.find(lbrace)`, `end = text.rfind(rbrace) + 1`, parse
`text[start:end]` when `start >= 0 and end > start`. -/
def brace_span (text : List Char) : Option (List Char) :=
  match findIdxC lbrace text, rfindIdxC rbrace text with
  | some s, some e => if e + 1 > s then some ((text.drop s).take (e + 1 - s)) else none
  | _, _ => none

/-- `PlannerService._parse_beat` (planner_service.py:160-195). -/
def parse_beat (parseB : List Char → Option Beat) (raw : List Char) : Beat :=
  let text := strip_fences_planner raw
  match parseB text with
  | some beat => beat
  | none =>
    match brace_span text with
    | some span =>
      match parseB span with
      | some beat => beat
      | none => FALLBACK_BEAT
    | none => FALLBACK_BEAT

/-- `PlannerService.plan_beat` (planner_service.py:60-135): the model
call outcome is passed in; any upstream exception is swallowed into a
fallback beat recording the failure, then the world-bible
cross-reference runs. -/
def plan_beat (parseB : List Char → Option Beat)
    (modelOutcome : Except Err (List Char))
    (world_bible_entities : Option (List EntityDict)) : Beat :=
  let beat :=
    match modelOutcome with
    | .ok raw => parse_beat parseB raw
    | .error e =>
      { FALLBACK_BEAT with continuity_warnings := ["Planner error: " ++ e.msg] }
  validate_characters world_bible_entities beat

/-! ### The narrative store and the generation orchestrator
(`story_service.py`)

The relational store is embedded as in-memory tables; a committed
transaction is a returned `Store`.  Model calls, embeddings, the two
vector-search queries and the DB-assigned node id are oracle inputs.
The generation semaphore does not change the store and is treated in
the concurrency model further below. -/

structure StoryRec where
  id : Nat
  content_mode : String
  context_depth : Nat
  current_leaf_id : Option Nat
deriving DecidableEq

structure NodeRec where
  id : Nat
  story_id : Nat
  parent_id : Option Nat
  content : String
  node_type : String
  summary : Option String
  embedding : Option (List Int)
  metadata_beat : Option Beat
  metadata_continuity_warnings : Option (List String)
deriving DecidableEq

structure WBRec where
  id : Nat
  story_id : Nat
  name : String
  entity_type : String
  description : String
deriving DecidableEq

structure Store where
  stories : List StoryRec
  nodes : List NodeRec
  entities : List WBRec
deriving DecidableEq

def lookupStory (st : Store) (i : Nat) : Option StoryRec :=
  st.stories.find? (fun s => s.id == i)

def lookupNode (st : Store) (i : Nat) : Option NodeRec :=
  st.nodes.find? (fun n => n.id == i)

/-- `ContextService._get_ancestors` (context_service.py:86-111): walk
up to `depth` parent steps, stopping at the root or a missing node
(the walk appends then reverses to oldest-first). -/
def ancestorWalk (st : Store) : Nat → Nat → List NodeRec
  | _, 0 => []
  | nid, Nat.succ d =>
    match lookupNode st nid with
    | none => []
    | some node =>
      node :: (match node.parent_id with
               | none => []
               | some p => ancestorWalk st p d)

/-- `ContextService._name_match_entities` (context_service.py:165-181). -/
def name_match_entities (st : Store) (story_id : Nat) (user_prompt : String) :
    List WBRec :=
  (st.entities.filter (fun e => e.story_id == story_id)).filter
    (fun e => subIn (lowerS e.name).toList (lowerS user_prompt).toList)

/-- The dict merge of `build_context` (context_service.py:79-81):
vector results first, name matches upserted by id. -/
def upsertEntity (l : List WBRec) (e : WBRec) : List WBRec :=
  if l.any (fun x => x.id == e.id) then
    l.map (fun x => if x.id == e.id then e else x)
  else l ++ [e]

def merge_entities (by_vector by_name : List WBRec) : List WBRec :=
  by_name.foldl upsertEntity by_vector

/-- Oracle inputs for one generation request: outcomes of every
external call it makes, in program order. -/
structure GenOracles where
  prompt_embedding : Except Err (List Int)
  similar_nodes : List CtxNode
  vector_entities : List WBRec
  parseB : List Char → Option Beat
  planner_raw : Except Err (List Char)
  writer_raw : Except Err (List Char)
  content_embedding : Except Err (List Int)
  summary_raw : Except Err (List Char)
  new_node_id : Nat

structure GenConfig where
  moa_enabled : Bool
deriving DecidableEq

/-- `ContextService.build_context` (context_service.py:32-84): the
embedding call can fail and aborts the whole build; the rest is
assembly over store walks and oracle-provided search results, with the
default `token_budget = 3000`. -/
def build_context (st : Store) (orc : GenOracles)
    (story_id parent_node_id : Nat) (user_prompt : String)
    (ancestor_depth : Nat) : Except Err String :=
  match orc.prompt_embedding with
  | .error e => .error e
  | .ok _vec =>
    let ancestors := (ancestorWalk st parent_node_id ancestor_depth).reverse
    let entities := merge_entities orc.vector_entities
      (name_match_entities st story_id user_prompt)
    .ok (assemble (ancestors.map (fun n => ⟨n.content, n.summary⟩))
      orc.similar_nodes
      (entities.map (fun e => ⟨e.name, e.entity_type, e.description⟩))
      3000)

/-- `StoryGenerationService._get_world_bible_entities`
(story_service.py:80-95). -/
def get_world_bible_entities (st : Store) (story_id : Nat) : List EntityDict :=
  (st.entities.filter (fun e => e.story_id == story_id)).map
    (fun e => ⟨e.name, e.entity_type, e.description⟩)

/-- The body of the generation lock (story_service.py:153-176): plan
then write under MoA (plan never raises; `write_scene` cleans its
output), or the single-model call. -/
def moa_phase (cfg : GenConfig) (orc : GenOracles) (st : Store)
    (story_id : Nat) : Except Err (Option Beat × List Char) :=
  if cfg.moa_enabled then
    let wb := get_world_bible_entities st story_id
    let beat := plan_beat orc.parseB orc.planner_raw (some wb)
    match orc.writer_raw with
    | .error e => .error e
    | .ok raw => .ok (some beat, clean_model_output raw)
  else
    match orc.writer_raw with
    | .error e => .error e
    | .ok raw => .ok (none, raw)

/-- Node construction (story_service.py:185-192). -/
def mk_new_node (orc : GenOracles) (story_id parent_node_id : Nat)
    (beatOpt : Option Beat) (content : List Char) : List Int → NodeRec :=
  fun emb =>
    { id := orc.new_node_id
      story_id := story_id
      parent_id := some parent_node_id
      content := String.mk content
      node_type := "scene"
      summary := none
      embedding := some emb
      metadata_beat := beatOpt
      metadata_continuity_warnings :=
        match beatOpt with
        | some b =>
          if b.continuity_warnings ≠ [] then some b.continuity_warnings else none
        | none => none }

/-- `story.current_leaf_id = new_node.id` after the re-fetch
(story_service.py:195-200). -/
def set_current_leaf (st : Store) (story_id nid : Nat) : Store :=
  let stories := st.stories.map (fun s =>
    if s.id == story_id then { s with current_leaf_id := some nid } else s)
  { st with stories := stories }

/-- `session.add(new_node)` followed by the pointer update and commit
(story_service.py:193-203). -/
def persist_node (st : Store) (story_id : Nat) (node : NodeRec) : Store :=
  set_current_leaf { st with nodes := st.nodes ++ [node] } story_id node.id

def update_summary (st : Store) (nid : Nat) (s : String) : Store :=
  let nodes := st.nodes.map (fun n =>
    if n.id == nid then { n with summary := some s } else n)
  { st with nodes := nodes }

/-- `StoryGenerationService._generate_summary`
(story_service.py:321-337): best-effort; a failure is swallowed and
the node is left as is. -/
def apply_summary (orc : GenOracles) (st : Store) (node : NodeRec) :
    Store × NodeRec :=
  match orc.summary_raw with
  | .error _ => (st, node)
  | .ok s =>
    (update_summary st node.id (String.mk (stripL s)),
     { node with summary := some (String.mk (stripL s)) })

/-- `StoryGenerationService.generate_scene` (story_service.py:122-209)
in state-passing form: each early error exit hands back the store as
it stood at that point, so the theorem that a failed generation leaves
the store untouched checks that no mutation precedes the fallible
calls. -/
def generate_scene (cfg : GenConfig) (orc : GenOracles) (st : Store)
    (story_id parent_node_id : Nat) (user_prompt : String) :
    Store × Except Err NodeRec :=
  match lookupStory st story_id with
  | none => (st, .error ⟨ErrKind.validation, "story not found"⟩)
  | some story_obj =>
    match build_context st orc story_id parent_node_id user_prompt
        story_obj.context_depth with
    | .error e => (st, .error e)
    | .ok _context =>
      match moa_phase cfg orc st story_id with
      | .error e => (st, .error e)
      | .ok (beatOpt, content₀) =>
        let content := clean_model_output content₀
        match orc.content_embedding with
        | .error e => (st, .error e)
        | .ok emb =>
          let node := mk_new_node orc story_id parent_node_id beatOpt content emb
          let st2 := persist_node st story_id node
          let r := apply_summary orc st2 node
          (r.1, .ok r.2)

/-- `StoryGenerationService.create_branch` (story_service.py:339-361). -/
def create_branch (cfg : GenConfig) (orc : GenOracles) (st : Store)
    (node_id : Nat) (user_prompt : String) : Store × Except Err NodeRec :=
  match lookupNode st node_id with
  | none => (st, .error ⟨ErrKind.validation, "node not found"⟩)
  | some node =>
    match node.parent_id with
    | none =>
      (st, .error ⟨ErrKind.validation,
        "Cannot branch from the root node — it has no parent"⟩)
    | some _p => generate_scene cfg orc st node.story_id _p user_prompt

/-! ### Claim C6 -/

/-- C6: if any step of the `generate_scene` sequence fails — the
story fetch, context assembly (including embedding the direction), the
writer model call, or embedding the cleaned prose — the request ends
in an error and the store is exactly as it was: no node row is added
and `current_leaf_id` is not advanced.  (The planner call cannot fail
the request: `plan_beat` swallows its errors into a fallback beat, and
summary failure after commit is likewise swallowed.) -/
theorem C6_failed_generation_leaves_store (cfg : GenConfig) (orc : GenOracles)
    (st : Store) (story_id parent_node_id : Nat) (user_prompt : String) :
    ∀ e, (generate_scene cfg orc st story_id parent_node_id user_prompt).2
        = .error e →
      (generate_scene cfg orc st story_id parent_node_id user_prompt).1 = st := by
  intro e he
  rcases hs : lookupStory st story_id with _ | story
  · simp [generate_scene, hs]
  · rcases hbc : build_context st orc story_id parent_node_id user_prompt
        story.context_depth with e' | ctx
    · simp [generate_scene, hs, hbc]
    · rcases hm : moa_phase cfg orc st story_id with e' | ⟨beatOpt, c0⟩
      · simp [generate_scene, hs, hbc, hm]
      · rcases hce : orc.content_embedding with e' | emb
        · simp [generate_scene, hs, hbc, hm, hce]
        · exfalso
          simp [generate_scene, hs, hbc, hm, hce] at he

def exStoreC6 : Store :=
  ⟨[⟨1, "unrestricted", 3, some 0⟩],
   [⟨0, 1, none, "Once upon a time.", "root", none, none, none, none⟩], []⟩

def exOrcC6 : GenOracles :=
  { prompt_embedding := .ok [1]
    similar_nodes := []
    vector_entities := []
    parseB := fun _ => none
    planner_raw := .ok "x".toList
    writer_raw := .error ⟨ErrKind.unavailable, "backend unreachable"⟩
    content_embedding := .ok [1]
    summary_raw := .ok "s".toList
    new_node_id := 7 }

/-- C6 (witness): a writer backend outage aborts the turn and leaves
the store byte-for-byte identical. -/
theorem C6_failed_generation_leaves_store_witness :
    (generate_scene ⟨true⟩ exOrcC6 exStoreC6 1 0 "Go north").1 = exStoreC6 :=
  C6_failed_generation_leaves_store ⟨true⟩ exOrcC6 exStoreC6 1 0 "Go north"
    ⟨ErrKind.unavailable, "backend unreachable"⟩ (by rfl)

/-! ### Claim C7 -/

theorem apply_summary_parent (orc : GenOracles) (st : Store) (n : NodeRec) :
    ((apply_summary orc st n).2).parent_id = n.parent_id := by
  unfold apply_summary
  cases orc.summary_raw <;> rfl

theorem apply_summary_mem (orc : GenOracles) (st : Store) (n : NodeRec)
    (h : n ∈ st.nodes) :
    (apply_summary orc st n).2 ∈ (apply_summary orc st n).1.nodes := by
  unfold apply_summary
  cases orc.summary_raw with
  | error e => exact h
  | ok s =>
    simp only [update_summary]
    have hm := List.mem_map_of_mem (fun x =>
      if x.id == n.id then { x with summary := some (String.mk (stripL s)) } else x) h
    simpa using hm

theorem persist_node_nodes (st : Store) (sid : Nat) (n : NodeRec) :
    (persist_node st sid n).nodes = st.nodes ++ [n] := rfl

theorem generate_scene_ok_shape (cfg : GenConfig) (orc : GenOracles) (st : Store)
    (story_id parent_node_id : Nat) (up : String) :
    ∀ stq nd, generate_scene cfg orc st story_id parent_node_id up = (stq, .ok nd) →
      nd.parent_id = some parent_node_id ∧ nd ∈ stq.nodes := by
  intro stq nd h
  rcases hs : lookupStory st story_id with _ | story
  · simp [generate_scene, hs] at h
  · rcases hbc : build_context st orc story_id parent_node_id up
        story.context_depth with e' | ctx
    · simp [generate_scene, hs, hbc] at h
    · rcases hm : moa_phase cfg orc st story_id with e' | ⟨beatOpt, c0⟩
      · simp [generate_scene, hs, hbc, hm] at h
      · rcases hce : orc.content_embedding with e' | emb
        · simp [generate_scene, hs, hbc, hm, hce] at h
        · simp only [generate_scene, hs, hbc, hm, hce] at h
          obtain ⟨hst, hnd⟩ := Prod.mk.injEq .. ▸ h
          have hnd' : nd = (apply_summary orc
              (persist_node st story_id
                (mk_new_node orc story_id parent_node_id beatOpt
                  (clean_model_output c0) emb))
              (mk_new_node orc story_id parent_node_id beatOpt
                (clean_model_output c0) emb)).2 := by
            exact (Except.ok.injEq .. ▸ hnd.symm)
          subst hst hnd'
          constructor
          · rw [apply_summary_parent]
            rfl
          · apply apply_summary_mem
            rw [persist_node_nodes]
            exact List.mem_append_right _ (List.mem_singleton_self _)

/-- C7: branching from a node whose `parent_id` is `P` runs the
generation sequence against `P`, so a successful branch node is a
structural sibling of the reference node (its `parent_id` is `P`, not
the reference node's id) and is persisted; branching from a node with
no parent raises the validation failure and creates nothing (store
returned unchanged). -/
theorem C7_create_branch_sibling (cfg : GenConfig) (orc : GenOracles)
    (st : Store) (node_id : Nat) (user_prompt : String) :
    (∀ n P stq nd, lookupNode st node_id = some n → n.parent_id = some P →
        create_branch cfg orc st node_id user_prompt = (stq, .ok nd) →
        nd.parent_id = some P ∧ nd ∈ stq.nodes)
    ∧ (∀ n, lookupNode st node_id = some n → n.parent_id = none →
        create_branch cfg orc st node_id user_prompt
          = (st, .error ⟨ErrKind.validation,
              "Cannot branch from the root node — it has no parent"⟩)) := by
  constructor
  · intro n P stq nd hn hp h
    simp only [create_branch, hn, hp] at h
    exact generate_scene_ok_shape cfg orc st n.story_id P user_prompt stq nd h
  · intro n hn hp
    simp [create_branch, hn, hp]

def exStoreC7 : Store :=
  ⟨[⟨1, "unrestricted", 3, some 1⟩],
   [⟨0, 1, none, "Root.", "root", none, none, none, none⟩,
    ⟨1, 1, some 0, "Child.", "scene", none, none, none, none⟩], []⟩

def exOrcC7 : GenOracles :=
  { prompt_embedding := .ok []
    similar_nodes := []
    vector_entities := []
    parseB := fun _ => none
    planner_raw := .ok "notjson".toList
    writer_raw := .ok "A new scene.".toList
    content_embedding := .ok [2]
    summary_raw := .ok "Sum.".toList
    new_node_id := 2 }

def exBranchNodeC7 : NodeRec :=
  { id := 2, story_id := 1, parent_id := some 0, content := "A new scene."
    node_type := "scene", summary := some "Sum.", embedding := some [2]
    metadata_beat := some FALLBACK_BEAT
    metadata_continuity_warnings :=
      some ["Planner produced invalid output — using fallback beat"] }

def exStoreC7' : Store :=
  ⟨[⟨1, "unrestricted", 3, some 2⟩],
   [⟨0, 1, none, "Root.", "root", none, none, none, none⟩,
    ⟨1, 1, some 0, "Child.", "scene", none, none, none, none⟩,
    exBranchNodeC7], []⟩

/-- C7 (witness): branching from the scene node (parent 0) yields a
sibling with `parent_id = 0`, persisted; branching from the root node
is rejected with the store unchanged. -/
theorem C7_create_branch_sibling_witness :
    (exBranchNodeC7.parent_id = some 0 ∧ exBranchNodeC7 ∈ exStoreC7'.nodes)
    ∧ create_branch ⟨true⟩ exOrcC7 exStoreC7 0 "again"
        = (exStoreC7, .error ⟨ErrKind.validation,
            "Cannot branch from the root node — it has no parent"⟩) :=
  ⟨(C7_create_branch_sibling ⟨true⟩ exOrcC7 exStoreC7 1 "alt").1
      ⟨1, 1, some 0, "Child.", "scene", none, none, none, none⟩ 0
      exStoreC7' exBranchNodeC7 (by rfl) (by rfl) (by rfl),
   (C7_create_branch_sibling ⟨true⟩ exOrcC7 exStoreC7 0 "again").2
      ⟨0, 1, none, "Root.", "root", none, none, none, none⟩ (by rfl) (by rfl)⟩

/-! ### Generation concurrency (`model_manager.py`, `story_service.py`)

`ModelManager.__init__` (model_manager.py:21) creates
`asyncio.Semaphore(1)` PER INSTANCE, and each
`StoryGenerationService()` builds its own `ModelManager`
(story_service.py:63).  The process holds several such service
instances: `app/api/nodes.py:26` and `app/api/websocket.py:26` each
construct one at module load (plus the CLI's own).  A generation
request is, for lock purposes, the sequence
`acquire lock; planner call; writer call; release lock`
(story_service.py:153-176, MoA mode).

The cooperative scheduler is modelled explicitly: two requests A and B
each run that four-step program; a schedule is the list of which
request moves next; a move is enabled when the request's next step is
enabled (acquire needs a free semaphore).  Each request is assigned
one of two capacity-1 semaphores — the same one when both requests go
through one service instance, different ones when they go through
different instances (REST vs WebSocket). -/

inductive CallKind : Type
  | plan
  | write
deriving DecidableEq

structure Call where
  req : Bool
  kind : CallKind
deriving DecidableEq

structure LockAssign where
  lockA : Bool
  lockB : Bool
deriving DecidableEq

structure SemState where
  pcA : Nat
  pcB : Nat
  sem0 : Nat
  sem1 : Nat
deriving DecidableEq

def getSem (s : SemState) (l : Bool) : Nat := if l then s.sem1 else s.sem0

def setSem (s : SemState) (l : Bool) (v : Nat) : SemState :=
  if l then { s with sem1 := v } else { s with sem0 := v }

def setPc (r : Bool) (s : SemState) (v : Nat) : SemState :=
  if r then { s with pcB := v } else { s with pcA := v }

/-- One scheduler move of request `r`: program counter 0 = acquire,
1 = planner call, 2 = writer call, 3 = release, 4 = done.  `none`
means the move is not enabled (semaphore held, or program finished). -/
def step (la : LockAssign) (s : SemState) (r : Bool) :
    Option (SemState × Option Call) :=
  let pc := if r then s.pcB else s.pcA
  let lk := if r then la.lockB else la.lockA
  match pc with
  | 0 => if 1 ≤ getSem s lk then
      some (setPc r (setSem s lk (getSem s lk - 1)) 1, none)
    else none
  | 1 => some (setPc r s 2, some ⟨r, CallKind.plan⟩)
  | 2 => some (setPc r s 3, some ⟨r, CallKind.write⟩)
  | 3 => some (setPc r (setSem s lk (getSem s lk + 1)) 4, none)
  | _ => none

/-- Run a schedule to completion; fails if any scheduled move is not
enabled.  Returns the final state and the model-call trace. -/
def exec (la : LockAssign) : SemState → List Bool → Option (SemState × List Call)
  | s, [] => some (s, [])
  | s, r :: sched =>
    match step la s r with
    | none => none
    | some (s', copt) =>
      match exec la s' sched with
      | none => none
      | some (sf, tr) =>
        some (sf, (match copt with | some c => [c] | none => []) ++ tr)

def initState : SemState := ⟨0, 0, 1, 1⟩

def reqSeq (tr : List Call) : List Bool := tr.map (·.req)

/-- A request sequence is serial when one request's calls form a
contiguous block before the other's: no A-call appears after a B-call
that itself follows an A-call. -/
def isSerial (l : List Bool) : Bool :=
  match l with
  | [] => true
  | a :: rest => (rest.dropWhile (· == a)).all (· == !a)

theorem setSem_pcA (s : SemState) (l : Bool) (v : Nat) :
    (setSem s l v).pcA = s.pcA := by cases l <;> rfl

theorem setSem_pcB (s : SemState) (l : Bool) (v : Nat) :
    (setSem s l v).pcB = s.pcB := by cases l <;> rfl

theorem step_pc {la : LockAssign} {s : SemState} {r : Bool} {s' : SemState}
    {copt : Option Call} (h : step la s r = some (s', copt)) :
    s'.pcA + s'.pcB = s.pcA + s.pcB + 1 ∧
    (s.pcA ≤ 4 → s'.pcA ≤ 4) ∧ (s.pcB ≤ 4 → s'.pcB ≤ 4) := by
  cases r with
  | false =>
    rcases hpc : s.pcA with _ | _ | _ | _ | n
    all_goals simp only [step, hpc, if_true, if_false, Bool.false_eq_true] at h
    · by_cases hsem : 1 ≤ getSem s la.lockA
      · rw [if_pos hsem] at h
        obtain ⟨hs, _⟩ := Prod.mk.injEq .. ▸ Option.some.injEq .. ▸ h
        subst hs
        simp [setPc, setSem_pcA, setSem_pcB, hpc]
        try omega
      · rw [if_neg hsem] at h
        exact absurd h (by simp)
    · obtain ⟨hs, _⟩ := Prod.mk.injEq .. ▸ Option.some.injEq .. ▸ h
      subst hs
      simp [setPc, setSem_pcA, setSem_pcB, hpc]
      try omega
    · obtain ⟨hs, _⟩ := Prod.mk.injEq .. ▸ Option.some.injEq .. ▸ h
      subst hs
      simp [setPc, setSem_pcA, setSem_pcB, hpc]
      try omega
    · obtain ⟨hs, _⟩ := Prod.mk.injEq .. ▸ Option.some.injEq .. ▸ h
      subst hs
      simp [setPc, setSem_pcA, setSem_pcB, hpc]
      try omega
    · exact absurd h (by simp)
  | true =>
    rcases hpc : s.pcB with _ | _ | _ | _ | n
    all_goals simp only [step, hpc, if_true, if_false, Bool.false_eq_true] at h
    · by_cases hsem : 1 ≤ getSem s la.lockB
      · rw [if_pos hsem] at h
        obtain ⟨hs, _⟩ := Prod.mk.injEq .. ▸ Option.some.injEq .. ▸ h
        subst hs
        simp [setPc, setSem_pcA, setSem_pcB, hpc]
        try omega
      · rw [if_neg hsem] at h
        exact absurd h (by simp)
    · obtain ⟨hs, _⟩ := Prod.mk.injEq .. ▸ Option.some.injEq .. ▸ h
      subst hs
      simp [setPc, setSem_pcA, setSem_pcB, hpc]
      try omega
    · obtain ⟨hs, _⟩ := Prod.mk.injEq .. ▸ Option.some.injEq .. ▸ h
      subst hs
      simp [setPc, setSem_pcA, setSem_pcB, hpc]
      try omega
    · obtain ⟨hs, _⟩ := Prod.mk.injEq .. ▸ Option.some.injEq .. ▸ h
      subst hs
      simp [setPc, setSem_pcA, setSem_pcB, hpc]
      try omega
    · exact absurd h (by simp)

theorem exec_pcsum (la : LockAssign) : ∀ (sched : List Bool) (s s' : SemState)
    (tr : List Call), s.pcA ≤ 4 → s.pcB ≤ 4 →
    exec la s sched = some (s', tr) →
    sched.length + s.pcA + s.pcB = s'.pcA + s'.pcB ∧ s'.pcA ≤ 4 ∧ s'.pcB ≤ 4 := by
  intro sched
  induction sched with
  | nil =>
    intro s s' tr hA hB h
    simp only [exec, Option.some.injEq] at h
    obtain ⟨hs, _⟩ := Prod.mk.injEq .. ▸ h
    subst hs
    simpa using ⟨hA, hB⟩
  | cons r rest ih =>
    intro s s' tr hA hB h
    rcases hstep : step la s r with _ | ⟨s₂, copt⟩
    · rw [show exec la s (r :: rest) = none from by simp [exec, hstep]] at h
      exact absurd h (by simp)
    · rcases hrec : exec la s₂ rest with _ | ⟨sf, tr₂⟩
      · rw [show exec la s (r :: rest) = none from by simp [exec, hstep, hrec]] at h
        exact absurd h (by simp)
      · obtain ⟨hsum, hA2, hB2⟩ := step_pc hstep
        obtain ⟨hr1, hr2, hr3⟩ := ih s₂ sf tr₂ (hA2 hA) (hB2 hB) hrec
        have hs : s' = sf := by
          rcases copt with _ | c
          · rw [show exec la s (r :: rest) = some (sf, tr₂)
                from by simp [exec, hstep, hrec]] at h
            exact (Prod.mk.injEq .. ▸ Option.some.injEq .. ▸ h).1.symm
          · rw [show exec la s (r :: rest) = some (sf, c :: tr₂)
                from by simp [exec, hstep, hrec]] at h
            exact (Prod.mk.injEq .. ▸ Option.some.injEq .. ▸ h).1.symm
        subst hs
        refine ⟨?_, hr2, hr3⟩
        simp only [List.length_cons]
        omega

/-- Bounded safety check: `isSerial` holds now and along every enabled
move, to the given depth. -/
def safeN (la : LockAssign) : Nat → SemState → List Bool → Bool
  | 0, _, acc => isSerial acc
  | Nat.succ n, s, acc =>
    isSerial acc &&
    ([false, true].all (fun r =>
      match step la s r with
      | none => true
      | some (s', copt) =>
        safeN la n s' (acc ++ (match copt with | some c => [c.req] | none => []))))

theorem safeN_exec (la : LockAssign) : ∀ (fuel : Nat) (sched : List Bool)
    (s : SemState) (acc : List Bool), sched.length ≤ fuel →
    safeN la fuel s acc = true →
    ∀ s' tr, exec la s sched = some (s', tr) →
      isSerial (acc ++ reqSeq tr) = true := by
  intro fuel
  induction fuel with
  | zero =>
    intro sched s acc hlen hsafe s' tr h
    have hnil : sched = [] := List.length_eq_zero.mp (Nat.le_zero.mp hlen)
    subst hnil
    simp only [exec, Option.some.injEq] at h
    obtain ⟨_, htr⟩ := Prod.mk.injEq .. ▸ h
    rw [← htr]
    simpa [reqSeq] using hsafe
  | succ n ih =>
    intro sched s acc hlen hsafe s' tr h
    have hsafe' := hsafe
    simp only [safeN, Bool.and_eq_true, List.all_eq_true] at hsafe'
    obtain ⟨hnow, hall⟩ := hsafe'
    cases sched with
    | nil =>
      simp only [exec, Option.some.injEq] at h
      obtain ⟨_, htr⟩ := Prod.mk.injEq .. ▸ h
      rw [← htr]
      simpa [reqSeq] using hnow
    | cons r rest =>
      rcases hstep : step la s r with _ | ⟨s₂, copt⟩
      · rw [show exec la s (r :: rest) = none from by simp [exec, hstep]] at h
        exact absurd h (by simp)
      · have hr : r ∈ [false, true] := by cases r <;> simp
        have hlen₂ : rest.length ≤ n := by
          simp only [List.length_cons] at hlen
          omega
        have hstep_safe := hall r hr
        rw [hstep] at hstep_safe
        rcases hrec : exec la s₂ rest with _ | ⟨sf, tr₂⟩
        · rw [show exec la s (r :: rest) = none from by simp [exec, hstep, hrec]] at h
          exact absurd h (by simp)
        · rcases copt with _ | c
          · rw [show exec la s (r :: rest) = some (sf, tr₂)
                from by simp [exec, hstep, hrec]] at h
            obtain ⟨hsf, htr⟩ := Prod.mk.injEq .. ▸ Option.some.injEq .. ▸ h
            have hrec2 := ih rest s₂ (acc ++ []) hlen₂
              (by simpa using hstep_safe) sf tr₂ hrec
            rw [← htr]
            simpa [reqSeq] using hrec2
          · rw [show exec la s (r :: rest) = some (sf, c :: tr₂)
                from by simp [exec, hstep, hrec]] at h
            obtain ⟨hsf, htr⟩ := Prod.mk.injEq .. ▸ Option.some.injEq .. ▸ h
            have hrec2 := ih rest s₂ (acc ++ [c.req]) hlen₂
              (by simpa using hstep_safe) sf tr₂ hrec
            rw [← htr]
            simpa [reqSeq, List.append_assoc] using hrec2

/-! ### Claim C9 -/

/-- C9 (counterexample): the generation semaphore is per
`ModelManager` instance, and `nodes.py:26` and `websocket.py:26` hold
distinct `StoryGenerationService` instances in one process, hence
distinct capacity-1 semaphores.  With the two requests assigned the
two distinct locks, the schedule A,B,A,B,... is enabled all the way
through and produces the interleaved call trace
plan(A), plan(B), write(A), write(B) — the claim's total ordering
fails in-process. -/
theorem C9_counterexample :
    (exec ⟨false, true⟩ initState
        [false, true, false, true, false, true, false, true]).map
      (fun r => reqSeq r.2) = some [false, true, false, true]
    ∧ isSerial [false, true, false, true] = false := by
  constructor <;> decide

/-- C9 (amended): two concurrent generation requests that go through
the SAME `StoryGenerationService` instance share its single
capacity-1 semaphore, and then every feasible schedule yields a
serial call trace: one request's plan+write sequence completes before
the other's begins.  (The per-process claim is false: requests through
different service instances — REST vs WebSocket — hold different
semaphores and can interleave, per the counterexample.) -/
theorem C9_amended_same_instance_serializes (la : LockAssign)
    (hsame : la.lockA = la.lockB) (sched : List Bool) :
    ∀ s' tr, exec la initState sched = some (s', tr) →
      isSerial (reqSeq tr) = true := by
  intro s' tr h
  have hlen : sched.length ≤ 8 := by
    obtain ⟨hsum, hA, hB⟩ := exec_pcsum la sched initState s' tr
      (by decide) (by decide) h
    simp only [initState] at hsum
    omega
  have hsafe : safeN la 8 initState [] = true := by
    rcases la with ⟨a, b⟩
    simp only at hsame
    subst hsame
    cases a <;> decide
  have := safeN_exec la 8 sched initState [] hlen hsafe s' tr h
  simpa using this

/-- C9 (amended, witness): the strictly alternating schedule deadlocks
under a shared lock (B cannot acquire while A holds), and the
sequential schedule A,A,A,A,B,B,B,B runs to completion with the serial
trace plan(A), write(A), plan(B), write(B). -/
theorem C9_amended_same_instance_serializes_witness :
    (∀ s' tr, exec ⟨false, false⟩ initState
        [false, false, false, false, true, true, true, true] = some (s', tr) →
      isSerial (reqSeq tr) = true)
    ∧ (exec ⟨false, false⟩ initState
        [false, false, false, false, true, true, true, true]).map
      (fun r => reqSeq r.2) = some [false, false, true, true] :=
  ⟨fun s' tr h => C9_amended_same_instance_serializes ⟨false, false⟩ rfl
      [false, false, false, false, true, true, true, true] s' tr h,
   by decide⟩

end Storyforge
